import Mathlib

/-!
# libsuv: the libuv connector of the SiriDB C client

A shallow embedding of `suv.c`: the stream buffer with `suv__alloc_buf` and
`suv__on_data`, the close path, and the write path with its error funnel.

Bytes are natural numbers, the storage `buf` is a list, and every call that
leaves the library (a hook, a libuv or libsiridb entry point, a request
callback) is appended to a trace.  The parts that come from libuv and
libsiridb are collected in `Ext`.
-/

namespace Suv

/-! ## Collaborators -/

/-- Calls that leave `suv.c`, in the order they are made. -/
inductive Event where
  /-- The call `buf->onclose(buf->data, msg)`. -/
  | onclose (msg : String)
  /-- The call `buf->onerror(buf->data, msg)`. -/
  | onerror (msg : String)
  /-- The call `uv_close(tcp_, suv__close_tcp)`. -/
  | uv_close
  /-- The call `siridb_on_pkg(suvbf->siridb, pkg)`, with the bytes of the package. -/
  | siridb_on_pkg (pkg : List Nat)
  /-- The call `req->cb(req)`, with the request's pid and its status at the call. -/
  | req_cb (pid : Nat) (status : Int)
  /-- The call `uv_write(uvreq, stream, &buf, 1, suv__write_cb)`, with the bytes handed over. -/
  | uv_write (pid : Nat) (bytes : List Nat)
  /-- The call `uv_tcp_connect(uvreq, tcp_, addr, suv__connect_cb)`. -/
  | uv_tcp_connect (pid : Nat)
  /-- The call `uv_read_start(uvreq->handle, suv__alloc_buf, suv__on_data)`. -/
  | uv_read_start
  deriving DecidableEq, Repr

/-- What `suv.c` takes from `<libsiridb/siridb.h>`, `<uv.h>` and the allocator.
The package header is read from the first `sizeof_siridb_pkg_t` bytes of the
buffer; `siridb_on_pkg` acts on the queue of the `siridb_t` and returns its
return code; `malloc_ok n` tells whether an allocation of `n` bytes for the
stream buffer succeeds. -/
structure Ext where
  /-- The value of `sizeof(siridb_pkg_t)`. -/
  sizeof_siridb_pkg_t : Nat
  /-- The field `pkg->len`, read from the header bytes. -/
  pkg_len : List Nat → Nat
  /-- The check `siridb_pkg_check_bit(pkg)`, read from the header bytes. -/
  siridb_pkg_check_bit : List Nat → Bool
  /-- The call `siridb_on_pkg(siridb, pkg)`: queue before, package bytes, queue after and return code. -/
  siridb_on_pkg : List Nat → List Nat → List Nat × Int
  /-- The message table of libsiridb. -/
  siridb_strerror : Int → String
  /-- The message table of libuv. -/
  uv_strerror : Int → String
  /-- The libuv status for end of stream. -/
  UV_EOF : Int
  /-- The libsiridb code for an allocation error. -/
  ERR_MEM_ALLOC : Int
  /-- The libsiridb code for a socket write error. -/
  ERR_SOCK_WRITE : Int
  /-- Whether `malloc`/`realloc` of this many bytes succeeds. -/
  malloc_ok : Nat → Bool

/-- The constant `MAX_PKG_SIZE` of `suv.c`. -/
def MAX_PKG_SIZE : Nat := 209715200

/-- The libuv handle behind `siridb->data`; `closing` is what `uv_is_closing` reads. -/
structure uv_tcp_t where
  closing : Bool
  deriving DecidableEq, Repr

/-- The struct `suv_buf_s`, together with what its `siridb` pointer reaches
(the `queue` of outstanding pids and the transport slot `data`) and the trace
of calls made so far. `onclose` and `onerror` tell whether the hook is set. -/
structure suv_buf_t where
  onclose : Bool
  onerror : Bool
  buf : List Nat
  len : Nat
  size : Nat
  queue : List Nat
  data : Option uv_tcp_t
  trace : List Event
  deriving DecidableEq, Repr

/-- The struct `siridb_req_s` as far as `suv.c` touches it. -/
structure siridb_req_t where
  pid : Nat
  status : Int
  deriving DecidableEq, Repr

/-- The struct `suv_write_s`: the package to send (its pid and all its bytes,
header included) and the request it serves. -/
structure suv_write_t where
  pkg_pid : Nat
  pkg : List Nat
  _req : siridb_req_t
  deriving DecidableEq, Repr

/-- Modelled from the spec: `queue_pop` of libsiridb, which "removes the
correlation id from the table". -/
def queue_pop (queue : List Nat) (pid : Nat) : List Nat :=
  queue.filter (fun p => p ≠ pid)

/-- The C negation of an `int`, kept in 32 bits. -/
def int_neg (x : Int) : Int :=
  (-x + 2147483648) % 4294967296 - 2147483648

/-! ## The stream buffer -/

/-- The function `suv_buf_create`: an empty buffer without hooks. -/
def suv_buf_create (queue : List Nat) (data : Option uv_tcp_t) : suv_buf_t :=
  { onclose := false, onerror := false, buf := [], len := 0, size := 0,
    queue := queue, data := data, trace := [] }

/-- The function `suv_close`. `msg = none` is the NULL message. The result is
`none` when `siridb->data` is NULL, where `uv_is_closing` reads through a NULL
pointer. -/
def suv_close (s : suv_buf_t) (msg : Option String) : Option suv_buf_t :=
  match s.data with
  | none => none
  | some tcp_ =>
    if !tcp_.closing then
      let s1 :=
        if s.onclose then
          { s with trace := s.trace ++ [Event.onclose (msg.getD "connection closed")] }
        else s
      some { s1 with data := some { closing := true }, trace := s1.trace ++ [Event.uv_close] }
    else some s

/-- The function `suv__close_tcp`, the close callback of the handle: it clears
`siridb->data` and frees the handle. -/
def suv__close_tcp (s : suv_buf_t) : suv_buf_t :=
  { s with data := none }

/-- The call `realloc(buf, total_sz)`: the old bytes up to `total_sz`, then
fresh bytes. -/
def realloc (buf : List Nat) (total_sz : Nat) : List Nat :=
  buf.take total_sz ++ List.replicate (total_sz - buf.length) 0

/-- The call `memmove(buf, buf + total_sz, len)`: the first `len` bytes become
those that stood at `total_sz`, the rest of the storage stays. -/
def memmove (buf : List Nat) (total_sz len : Nat) : List Nat :=
  (buf.drop total_sz).take len ++ buf.drop len

/-- The function `suv__alloc_buf`: the buffer after the call and the region
offered to the transport as (offset of `buf->base` in the storage, `buf->len`).
The result is `none` where the code calls `abort()`. -/
def suv__alloc_buf (E : Ext) (s : suv_buf_t) (sugsz : Nat) : Option (suv_buf_t × (Nat × Nat)) :=
  if s.len = 0 ∧ s.size ≠ sugsz then
    if E.malloc_ok sugsz then
      let s1 := { s with buf := List.replicate sugsz 0, size := sugsz, len := 0 }
      some (s1, (s1.len, s1.size - s1.len))
    else none
  else some (s, (s.len, s.size - s.len))

/-- The function `suv__on_data`, with a bound on the depth of its recursion.
The result is `none` when the bound is used up, where the code calls `abort()`,
and where `suv_close` reads through a NULL handle. -/
def suv__on_data_fuel (E : Ext) : Nat → suv_buf_t → Int → Option suv_buf_t
  | 0, _, _ => none
  | fuel + 1, s, n =>
    if n < 0 then
      suv_close s (if n ≠ E.UV_EOF then some (E.uv_strerror n) else none)
    else
      let s1 := { s with len := s.len + n.toNat }
      if s1.len < E.sizeof_siridb_pkg_t then some s1
      else
        let pkg := s1.buf.take E.sizeof_siridb_pkg_t
        if !E.siridb_pkg_check_bit pkg || E.pkg_len pkg > MAX_PKG_SIZE then
          suv_close s1 (some "invalid package, connection closed")
        else
          let total_sz := E.sizeof_siridb_pkg_t + E.pkg_len pkg
          if s1.len < total_sz then
            if s1.size < total_sz then
              if E.malloc_ok total_sz then
                some { s1 with buf := realloc s1.buf total_sz, size := total_sz }
              else none
            else some s1
          else
            let r := E.siridb_on_pkg s1.queue (s1.buf.take total_sz)
            let s2 := { s1 with queue := r.1,
                                trace := s1.trace ++ [Event.siridb_on_pkg (s1.buf.take total_sz)] }
            let s3 :=
              if r.2 ≠ 0 ∧ s2.onerror = true then
                { s2 with trace := s2.trace ++ [Event.onerror (E.siridb_strerror r.2)] }
              else s2
            let s4 := { s3 with len := s3.len - total_sz }
            if s4.len > 0 then
              suv__on_data_fuel E fuel { s4 with buf := memmove s4.buf total_sz s4.len } 0
            else some s4

/-- The function `suv__on_data`: the recursion is given one level for every
buffered byte, and one more. -/
def suv__on_data (E : Ext) (s : suv_buf_t) (n : Int) : Option suv_buf_t :=
  suv__on_data_fuel E (s.len + n.toNat + 1) s n

/-! ## The transport driving the buffer -/

/-- One read notification of libuv: either `chunk` arrives, or the read fails
with the negative status `-(k + 1)`. `sugsz` is the size suggested to
`suv__alloc_buf`. -/
inductive Read where
  | chunk (sugsz : Nat) (bytes : List Nat)
  | fail (sugsz : Nat) (k : Nat)
  deriving DecidableEq, Repr

/-- The transport stores `bytes` at offset `base` of the storage. The transport
never delivers more than the region `suv__alloc_buf` offered; bytes past the
end of the storage, which the code cannot receive, lengthen the list here. -/
def uv_fill (s : suv_buf_t) (base : Nat) (bytes : List Nat) : suv_buf_t :=
  { s with buf := s.buf.take base ++ bytes ++ s.buf.drop (base + bytes.length) }

/-- One read: `suv__alloc_buf`, the bytes stored at the offered base, then
`suv__on_data` with their number, or with the failure status. -/
def uv_read (E : Ext) (s : suv_buf_t) : Read → Option suv_buf_t
  | Read.chunk sugsz bytes =>
    match suv__alloc_buf E s sugsz with
    | none => none
    | some (s1, (base, _)) => suv__on_data E (uv_fill s1 base bytes) bytes.length
  | Read.fail sugsz k =>
    match suv__alloc_buf E s sugsz with
    | none => none
    | some (s1, _) => suv__on_data E s1 (Int.negSucc k)

/-- A sequence of reads, in order. -/
def uv_reads (E : Ext) : suv_buf_t → List Read → Option suv_buf_t
  | s, [] => some s
  | s, r :: rs =>
    match uv_read E s r with
    | none => none
    | some s1 => uv_reads E s1 rs

/-- The packages handed to `siridb_on_pkg`, in order. -/
def on_pkgs : List Event → List (List Nat)
  | [] => []
  | Event.siridb_on_pkg pkg :: t => pkg :: on_pkgs t
  | _ :: t => on_pkgs t

/-- The bytes `[0, len)` of the storage. -/
def buffered (s : suv_buf_t) : List Nat :=
  s.buf.take s.len

/-- A complete frame with a header that passes the checks of `suv__on_data`:
the check bit holds, the declared length is at most `MAX_PKG_SIZE`, and the
frame has exactly header size plus declared length bytes. -/
def valid_frame (E : Ext) (f : List Nat) : Prop :=
  E.siridb_pkg_check_bit (f.take E.sizeof_siridb_pkg_t) = true ∧
  E.pkg_len (f.take E.sizeof_siridb_pkg_t) ≤ MAX_PKG_SIZE ∧
  f.length = E.sizeof_siridb_pkg_t + E.pkg_len (f.take E.sizeof_siridb_pkg_t)

instance (E : Ext) (f : List Nat) : Decidable (valid_frame E f) := by
  unfold valid_frame; infer_instance

/-- The header check of `suv__on_data` fails on these header bytes. -/
def invalid_pkg (E : Ext) (pkg : List Nat) : Prop :=
  E.siridb_pkg_check_bit pkg = false ∨ MAX_PKG_SIZE < E.pkg_len pkg

instance (E : Ext) (pkg : List Nat) : Decidable (invalid_pkg E pkg) := by
  unfold invalid_pkg; infer_instance

/-- Bytes at which `suv__on_data` waits for more: fewer than a header, or a
header that passes the checks with fewer bytes than it declares. -/
def incomplete (E : Ext) (r : List Nat) : Prop :=
  r.length < E.sizeof_siridb_pkg_t ∨
  (¬ invalid_pkg E (r.take E.sizeof_siridb_pkg_t) ∧
    r.length < E.sizeof_siridb_pkg_t + E.pkg_len (r.take E.sizeof_siridb_pkg_t))

instance (E : Ext) (r : List Nat) : Decidable (incomplete E r) := by
  unfold incomplete; infer_instance

/-! ## The write path -/

/-- The function `suv_write_error`: the pid of the package leaves the queue,
the request takes the error code, and its callback runs. -/
def suv_write_error (s : suv_buf_t) (swrite : suv_write_t) (err_code : Int) :
    suv_buf_t × suv_write_t :=
  let req : siridb_req_t := { swrite._req with status := err_code }
  ({ s with queue := queue_pop s.queue swrite.pkg_pid,
            trace := s.trace ++ [Event.req_cb req.pid req.status] },
   { swrite with _req := req })

/-- The function `suv_strerror`. -/
def suv_strerror (E : Ext) (err_code : Int) : String :=
  if err_code > 0 then E.uv_strerror (int_neg err_code) else E.siridb_strerror err_code

/-- The bytes given to `uv_buf_init`: `sizeof(siridb_pkg_t) + pkg->len` bytes
of the package. -/
def uv_buf_init (E : Ext) (pkg : List Nat) : List Nat :=
  pkg.take (E.sizeof_siridb_pkg_t + E.pkg_len (pkg.take E.sizeof_siridb_pkg_t))

/-- The function `suv__write`. `uvreq_ok` tells whether the allocation of the
`uv_write_t` succeeds. -/
def suv__write (E : Ext) (uvreq_ok : Bool) (s : suv_buf_t) (swrite : suv_write_t) :
    suv_buf_t × suv_write_t :=
  match s.data with
  | none => suv_write_error s swrite E.ERR_SOCK_WRITE
  | some _ =>
    if !uvreq_ok then suv_write_error s swrite E.ERR_MEM_ALLOC
    else
      ({ s with trace := s.trace ++ [Event.uv_write swrite._req.pid (uv_buf_init E swrite.pkg)] },
       swrite)

/-- The function `suv_query`. -/
def suv_query (E : Ext) (uvreq_ok : Bool) (s : suv_buf_t) (suvq : suv_write_t) :
    suv_buf_t × suv_write_t :=
  suv__write E uvreq_ok s suvq

/-- The function `suv_insert`. -/
def suv_insert (E : Ext) (uvreq_ok : Bool) (s : suv_buf_t) (insert : suv_write_t) :
    suv_buf_t × suv_write_t :=
  suv__write E uvreq_ok s insert

/-- The function `suv_connect`. `uvreq_ok` and `tcp_ok` tell whether the two
allocations succeed. The result is `none` when the assertion
`buf->siridb->data == NULL` fails. -/
def suv_connect (E : Ext) (uvreq_ok tcp_ok : Bool) (s : suv_buf_t) (connect : suv_write_t) :
    Option (suv_buf_t × suv_write_t) :=
  match s.data with
  | some _ => none
  | none =>
    if !uvreq_ok then some (suv_write_error s connect E.ERR_MEM_ALLOC)
    else if !tcp_ok then some (suv_write_error s connect E.ERR_MEM_ALLOC)
    else
      some ({ s with data := some { closing := false },
                     trace := s.trace ++ [Event.uv_tcp_connect connect._req.pid] },
            connect)

/-- The function `suv__connect_cb`. `uvw_ok` tells whether the allocation of
the `uv_write_t` succeeds. -/
def suv__connect_cb (E : Ext) (uvw_ok : Bool) (s : suv_buf_t) (connect : suv_write_t)
    (status : Int) : suv_buf_t × suv_write_t :=
  if status ≠ 0 then suv_write_error s connect (int_neg status)
  else if !uvw_ok then suv_write_error s connect E.ERR_MEM_ALLOC
  else
    ({ s with trace := s.trace ++
        [Event.uv_read_start, Event.uv_write connect._req.pid (uv_buf_init E connect.pkg)] },
     connect)

/-- The function `suv__write_cb`. -/
def suv__write_cb (s : suv_buf_t) (swrite : suv_write_t) (status : Int) :
    suv_buf_t × suv_write_t :=
  if status ≠ 0 then suv_write_error s swrite (int_neg status) else (s, swrite)

/-- The number of times the callback of the request `pid` has run. -/
def cb_count (pid : Nat) : List Event → Nat
  | [] => 0
  | Event.req_cb p _ :: t => (if p = pid then 1 else 0) + cb_count pid t
  | _ :: t => cb_count pid t

/-! ## A concrete collaborator -/

/-- Modelled from the spec: a frame header of eight bytes holding the payload
length (bytes 0 to 3, low byte first), the correlation id (bytes 4 and 5), the
type tag (byte 6) and the validity marker (byte 7, the complement of the type
tag), and a dispatch table that resolves a frame when its correlation id is
outstanding and reports an error otherwise. Allocations succeed. -/
def libsiridb : Ext where
  sizeof_siridb_pkg_t := 8
  pkg_len := fun h => h.getD 0 0 + 256 * h.getD 1 0 + 65536 * h.getD 2 0 + 16777216 * h.getD 3 0
  siridb_pkg_check_bit := fun h => h.getD 6 0 == Nat.xor (h.getD 7 0) 255
  siridb_on_pkg := fun q pkg =>
    if pkg.getD 4 0 + 256 * pkg.getD 5 0 ∈ q then
      (queue_pop q (pkg.getD 4 0 + 256 * pkg.getD 5 0), 0)
    else (q, -9)
  siridb_strerror := fun c => if c = -9 then "not found" else "error"
  uv_strerror := fun c => if c = -104 then "connection reset by peer" else "transport error"
  UV_EOF := -4095
  ERR_MEM_ALLOC := -1
  ERR_SOCK_WRITE := -4
  malloc_ok := fun _ => true

/-- A frame with payload `[10, 11]`, correlation id 7 and type tag 1. -/
def frameA : List Nat := [2, 0, 0, 0, 7, 0, 1, 254, 10, 11]

/-- A frame with payload `[20]`, correlation id 8 and type tag 2. -/
def frameB : List Nat := [1, 0, 0, 0, 8, 0, 2, 253, 20]

/-- A header whose validity marker fails. -/
def badHeader : List Nat := [1, 0, 0, 0, 9, 0, 2, 2]

/-- A fresh buffer on a live connection. -/
def fresh (queue : List Nat) : suv_buf_t :=
  suv_buf_create queue (some { closing := false })

/-! ## Definitions used by the statements -/

/-- The calls `suv__on_data` makes for the package of `total_sz` bytes at the
buffer's start: `siridb_on_pkg`, then the error hook when the return code is
not zero and the hook is set. -/
def pkg_events (E : Ext) (s : suv_buf_t) (total_sz : Nat) : List Event :=
  Event.siridb_on_pkg (s.buf.take total_sz) ::
    (if (E.siridb_on_pkg s.queue (s.buf.take total_sz)).2 ≠ 0 ∧ s.onerror = true then
      [Event.onerror (E.siridb_strerror (E.siridb_on_pkg s.queue (s.buf.take total_sz)).2)]
     else [])

/-- The buffer once `suv__on_data` has handed the package of `total_sz` bytes
at the buffer's start to `siridb_on_pkg`, called the error hook and reduced
`len` (the lines from the call of `siridb_on_pkg` to `suvbf->len -= total_sz`). -/
def after_pkg (E : Ext) (s : suv_buf_t) (total_sz : Nat) : suv_buf_t :=
  { s with
    queue := (E.siridb_on_pkg s.queue (s.buf.take total_sz)).1,
    trace := s.trace ++ pkg_events E s total_sz,
    len := s.len - total_sz }

/-- The buffer after `after_pkg` and the `memmove` that follows when bytes remain. -/
def compacted (E : Ext) (s : suv_buf_t) (total_sz : Nat) : suv_buf_t :=
  { after_pkg E s total_sz with buf := memmove s.buf total_sz (s.len - total_sz) }

/-- Events of a call of `suv__on_data` that dispatches without closing. -/
def dispatch_event : Event → Bool
  | Event.siridb_on_pkg _ => true
  | Event.onerror _ => true
  | _ => false

/-- The calls `suv_close` makes on a handle with this closing flag. -/
def close_events (s : suv_buf_t) (closing : Bool) (msg : Option String) : List Event :=
  if closing then []
  else (if s.onclose then [Event.onclose (msg.getD "connection closed")] else []) ++
    [Event.uv_close]

/-- The buffer starts with a complete header that fails the checks, on a
connection that still has its handle. -/
def halted (E : Ext) (s : suv_buf_t) : Prop :=
  (∃ tcp, s.data = some tcp) ∧ E.sizeof_siridb_pkg_t ≤ s.len ∧ s.len ≤ s.buf.length ∧
    invalid_pkg E (s.buf.take E.sizeof_siridb_pkg_t)

/-- A header that declares a payload of exactly `MAX_PKG_SIZE` bytes. -/
def maxHeader : List Nat := [0, 0, 128, 12, 7, 0, 1, 254]

/-- A header that declares a payload of `MAX_PKG_SIZE + 1` bytes. -/
def overHeader : List Nat := [1, 0, 128, 12, 7, 0, 1, 254]

/-- A buffer with the close hook set, holding nothing yet, whose storage
starts with the given bytes. -/
def hooked (queue : List Nat) (bytes : List Nat) : suv_buf_t :=
  { (fresh queue) with onclose := true, onerror := true, buf := bytes, size := bytes.length }

/-- A query for the request with correlation id 7. -/
def query7 : suv_write_t :=
  { pkg_pid := 7, pkg := [3, 0, 0, 0, 7, 0, 0, 255, 1, 2, 3], _req := { pid := 7, status := 0 } }

/-- The transport keeps to the region `suv__alloc_buf` offers: a chunk has at
most `buf->len` bytes. -/
def read_in_region (E : Ext) (s : suv_buf_t) : Read → Bool
  | Read.chunk sugsz bytes =>
    match suv__alloc_buf E s sugsz with
    | none => true
    | some (_, (_, len)) => decide (bytes.length ≤ len)
  | Read.fail _ _ => true

/-- Every read of the sequence keeps to the region offered at its turn. -/
def reads_in_region (E : Ext) : suv_buf_t → List Read → Bool
  | _, [] => true
  | s, r :: rs =>
    read_in_region E s r &&
      (match uv_read E s r with
       | none => true
       | some s1 => reads_in_region E s1 rs)

/-- A request the transport still holds when the handle is closed: a write
handed to `uv_write`, or the connect handed to `uv_tcp_connect`, whose
callback has not run yet. -/
inductive Pending where
  | write (swrite : suv_write_t)
  | connect (connect : suv_write_t)
  deriving DecidableEq, Repr

/-- The write object of a pending request. -/
def Pending.swrite : Pending → suv_write_t
  | Pending.write w => w
  | Pending.connect c => c

/-- What libuv does once `uv_close` has been called on the handle: every
request it still holds is ended with the status `UV_ECANCELED` (here
`ecanceled`) through the callback it was submitted with, `suv__write_cb` or
`suv__connect_cb`, and then the close callback `suv__close_tcp` runs. -/
def uv_close_finish (E : Ext) (ecanceled : Int) : suv_buf_t → List Pending → suv_buf_t
  | s, [] => suv__close_tcp s
  | s, Pending.write swrite :: ps =>
    uv_close_finish E ecanceled (suv__write_cb s swrite ecanceled).1 ps
  | s, Pending.connect connect :: ps =>
    uv_close_finish E ecanceled (suv__connect_cb E true s connect ecanceled).1 ps

/-- A query for the request with correlation id 8. -/
def query8 : suv_write_t :=
  { pkg_pid := 8, pkg := [1, 0, 0, 0, 8, 0, 0, 255, 9], _req := { pid := 8, status := 0 } }

/-! ## Auxiliary facts -/

theorem on_pkgs_append (a b : List Event) : on_pkgs (a ++ b) = on_pkgs a ++ on_pkgs b := by
  induction a with
  | nil => rfl
  | cons e t ih => cases e <;> simp [on_pkgs, ih]

theorem cb_count_append (pid : Nat) (a b : List Event) :
    cb_count pid (a ++ b) = cb_count pid a + cb_count pid b := by
  induction a with
  | nil => simp [cb_count]
  | cons e t ih => cases e <;> simp [cb_count, ih]; omega

/-- With no new bytes, a short buffer is returned as it is. -/
theorem on_data_fuel_short (E : Ext) (fuel : Nat) (s : suv_buf_t)
    (h : s.len < E.sizeof_siridb_pkg_t) :
    suv__on_data_fuel E (fuel + 1) s 0 = some s := by
  simp [suv__on_data_fuel, h]

/-- A delivery of `n` bytes is handled like no delivery on the buffer with `len` advanced. -/
theorem on_data_fuel_bump (E : Ext) (fuel : Nat) (s : suv_buf_t) (n : Nat) :
    suv__on_data_fuel E fuel s (n : Int) =
      suv__on_data_fuel E fuel { s with len := s.len + n } 0 := by
  cases fuel with
  | zero => rfl
  | succ k =>
    have h1 : ¬ ((n : Int) < 0) := by omega
    simp [suv__on_data_fuel, h1]

/-- A header that fails the checks leads to `suv_close`. -/
theorem on_data_fuel_invalid (E : Ext) (fuel : Nat) (s : suv_buf_t)
    (h : E.sizeof_siridb_pkg_t ≤ s.len)
    (hbad : invalid_pkg E (s.buf.take E.sizeof_siridb_pkg_t)) :
    suv__on_data_fuel E (fuel + 1) s 0 =
      suv_close s (some "invalid package, connection closed") := by
  have h1 : ¬ s.len < E.sizeof_siridb_pkg_t := by omega
  have h2 : (!E.siridb_pkg_check_bit (s.buf.take E.sizeof_siridb_pkg_t) ||
      decide (E.pkg_len (s.buf.take E.sizeof_siridb_pkg_t) > MAX_PKG_SIZE)) = true := by
    rcases hbad with hb | hb
    · simp [hb]
    · simp [hb]
  simp only [suv__on_data_fuel]
  simp [h1, h2]

/-- A header that passes the checks with fewer bytes than it declares: the
storage grows when it is too small, and the call returns. -/
theorem on_data_fuel_grow (E : Ext) (fuel : Nat) (s : suv_buf_t)
    (h : E.sizeof_siridb_pkg_t ≤ s.len)
    (hok : ¬ invalid_pkg E (s.buf.take E.sizeof_siridb_pkg_t))
    (hlt : s.len < E.sizeof_siridb_pkg_t + E.pkg_len (s.buf.take E.sizeof_siridb_pkg_t)) :
    suv__on_data_fuel E (fuel + 1) s 0 =
      (if s.size < E.sizeof_siridb_pkg_t + E.pkg_len (s.buf.take E.sizeof_siridb_pkg_t) then
        (if E.malloc_ok (E.sizeof_siridb_pkg_t + E.pkg_len (s.buf.take E.sizeof_siridb_pkg_t)) then
          some { s with
            buf := realloc s.buf
              (E.sizeof_siridb_pkg_t + E.pkg_len (s.buf.take E.sizeof_siridb_pkg_t)),
            size := E.sizeof_siridb_pkg_t + E.pkg_len (s.buf.take E.sizeof_siridb_pkg_t) }
         else none)
       else some s) := by
  have h1 : ¬ s.len < E.sizeof_siridb_pkg_t := by omega
  have h2 : (!E.siridb_pkg_check_bit (s.buf.take E.sizeof_siridb_pkg_t) ||
      decide (E.pkg_len (s.buf.take E.sizeof_siridb_pkg_t) > MAX_PKG_SIZE)) = false := by
    simp only [invalid_pkg, not_or] at hok
    simp only [Bool.or_eq_false_iff, Bool.not_eq_false_eq_eq_true, decide_eq_false_iff_not]
    exact ⟨by simpa using hok.1, by simpa using hok.2⟩
  simp only [suv__on_data_fuel]
  simp [h1, h2, hlt]

/-- A complete package at the buffer's start is handed over, and the call goes
on with the bytes that follow it. -/
theorem on_data_fuel_pkg (E : Ext) (fuel : Nat) (s : suv_buf_t)
    (h : E.sizeof_siridb_pkg_t ≤ s.len)
    (hok : ¬ invalid_pkg E (s.buf.take E.sizeof_siridb_pkg_t))
    (hge : E.sizeof_siridb_pkg_t + E.pkg_len (s.buf.take E.sizeof_siridb_pkg_t) ≤ s.len) :
    suv__on_data_fuel E (fuel + 1) s 0 =
      (if 0 < s.len - (E.sizeof_siridb_pkg_t + E.pkg_len (s.buf.take E.sizeof_siridb_pkg_t)) then
        suv__on_data_fuel E fuel
          (compacted E s (E.sizeof_siridb_pkg_t + E.pkg_len (s.buf.take E.sizeof_siridb_pkg_t))) 0
       else
        some (after_pkg E s
          (E.sizeof_siridb_pkg_t + E.pkg_len (s.buf.take E.sizeof_siridb_pkg_t)))) := by
  have h1 : ¬ s.len < E.sizeof_siridb_pkg_t := by omega
  have h2 : (!E.siridb_pkg_check_bit (s.buf.take E.sizeof_siridb_pkg_t) ||
      decide (E.pkg_len (s.buf.take E.sizeof_siridb_pkg_t) > MAX_PKG_SIZE)) = false := by
    simp only [invalid_pkg, not_or] at hok
    simp only [Bool.or_eq_false_iff, Bool.not_eq_false_eq_eq_true, decide_eq_false_iff_not]
    exact ⟨by simpa using hok.1, by simpa using hok.2⟩
  have h3 : ¬ s.len < E.sizeof_siridb_pkg_t + E.pkg_len (s.buf.take E.sizeof_siridb_pkg_t) := by
    omega
  simp only [suv__on_data_fuel]
  simp only [Int.toNat_zero, Nat.add_zero, lt_self_iff_false, if_false, h1, h2, h3,
    Bool.false_eq_true, gt_iff_lt, after_pkg, compacted, pkg_events]
  by_cases hr : (E.siridb_on_pkg s.queue
      (s.buf.take (E.sizeof_siridb_pkg_t + E.pkg_len (s.buf.take E.sizeof_siridb_pkg_t)))).2 ≠ 0
      ∧ s.onerror = true
  · simp [hr]
  · simp [hr]

theorem valid_frame_length (E : Ext) (f : List Nat) (h : valid_frame E f) :
    E.sizeof_siridb_pkg_t ≤ f.length := by
  have := h.2.2
  omega

theorem valid_frame_not_invalid (E : Ext) (f : List Nat) (h : valid_frame E f) :
    ¬ invalid_pkg E (f.take E.sizeof_siridb_pkg_t) := by
  intro hbad
  rcases hbad with hb | hb
  · rw [h.1] at hb; exact Bool.noConfusion hb
  · have := h.2.1; omega

/-- The first `k` bytes of the storage, read off the buffered bytes. -/
theorem take_of_buffered (buf a b : List Nat) (len k : Nat)
    (hbuf : buf.take len = a ++ b) (hlen : len = (a ++ b).length) (hk : k ≤ a.length) :
    buf.take k = a.take k := by
  have hkl : k ≤ len := by simp at hlen; omega
  have h1 : (buf.take len).take k = buf.take k := by
    rw [List.take_take, Nat.min_eq_left hkl]
  rw [← h1, hbuf, List.take_append_of_le_length hk]

/-- After the `memmove`, the buffered bytes are those that followed the package. -/
theorem take_memmove (buf a b : List Nat) (len : Nat)
    (hbuf : buf.take len = a ++ b) (hlen : len = (a ++ b).length) :
    (memmove buf a.length (len - a.length)).take (len - a.length) = b := by
  have hb : len - a.length = b.length := by simp at hlen; omega
  have hsplit : buf = (a ++ b) ++ buf.drop len := by
    rw [← hbuf, List.take_append_drop]
  have hd : buf.drop a.length = b ++ buf.drop len := by
    conv_lhs => rw [hsplit]
    rw [List.append_assoc, List.drop_left]
  rw [hb]
  unfold memmove
  rw [hd, List.take_left, List.take_left]

/-- After `realloc` to more than `len` bytes, the buffered bytes are the same. -/
theorem take_realloc (buf : List Nat) (len total_sz : Nat) (h1 : len ≤ buf.length)
    (h2 : len ≤ total_sz) : (realloc buf total_sz).take len = buf.take len := by
  unfold realloc
  rw [List.take_append_of_le_length (by simp; omega), List.take_take, Nat.min_eq_left h2]

/-- After `realloc` the storage has exactly the requested number of bytes. -/
theorem length_realloc (buf : List Nat) (total_sz : Nat) :
    (realloc buf total_sz).length = total_sz := by
  unfold realloc
  simp only [List.length_append, List.length_take, List.length_replicate]
  omega

/-- A `realloc` that does not shrink keeps every byte of the old storage. -/
theorem take_realloc_old (buf : List Nat) (total_sz : Nat) (h : buf.length ≤ total_sz) :
    (realloc buf total_sz).take buf.length = buf := by
  unfold realloc
  rw [List.take_of_length_le h, List.take_left]

theorem buffered_length_le (s : suv_buf_t) (r : List Nat) (h1 : buffered s = r)
    (h2 : s.len = r.length) : s.len ≤ s.buf.length := by
  unfold buffered at h1
  have := congrArg List.length h1
  simp at this
  omega

theorem on_pkgs_pkg_events (E : Ext) (s : suv_buf_t) (total_sz : Nat) :
    on_pkgs (pkg_events E s total_sz) = [s.buf.take total_sz] := by
  unfold pkg_events
  split_ifs <;> simp [on_pkgs]

theorem dispatch_pkg_events (E : Ext) (s : suv_buf_t) (total_sz : Nat) :
    ∀ e ∈ pkg_events E s total_sz, dispatch_event e = true := by
  intro e he
  unfold pkg_events at he
  split_ifs at he
  · simp at he
    rcases he with he | he <;> subst he <;> rfl
  · simp at he
    subst he; rfl

/-- Draining: when the buffered bytes are complete valid frames followed by
bytes at which the call waits, every frame is handed to `siridb_on_pkg` in
order, the waiting bytes end up at the start of the storage, and the
connection is left as it was. -/
theorem on_data_fuel_drain (E : Ext) (hpos : 0 < E.sizeof_siridb_pkg_t)
    (hmalloc : ∀ n, E.malloc_ok n = true) :
    ∀ (fs : List (List Nat)), (∀ f ∈ fs, valid_frame E f) →
    ∀ (r : List Nat), incomplete E r →
    ∀ (fuel : Nat) (s : suv_buf_t), buffered s = fs.flatten ++ r →
      s.len = (fs.flatten ++ r).length → s.len < fuel →
      ∃ s' t, suv__on_data_fuel E fuel s 0 = some s' ∧ buffered s' = r ∧
        s'.len = r.length ∧ s'.trace = s.trace ++ t ∧ on_pkgs t = fs ∧
        (∀ e ∈ t, dispatch_event e = true) ∧ s'.data = s.data ∧
        s'.onclose = s.onclose ∧ s'.onerror = s.onerror := by
  intro fs
  induction fs with
  | nil =>
    intro _ r hr fuel s hbuf hlen hfuel
    simp only [List.flatten_nil, List.nil_append] at hbuf hlen
    obtain ⟨k, rfl⟩ : ∃ k, fuel = k + 1 := ⟨fuel - 1, by omega⟩
    by_cases hshort : s.len < E.sizeof_siridb_pkg_t
    · exact ⟨s, [], on_data_fuel_short E k s hshort, hbuf, hlen, by simp, rfl, by simp,
        rfl, rfl, rfl⟩
    · have hpk : s.buf.take E.sizeof_siridb_pkg_t = r.take E.sizeof_siridb_pkg_t := by
        have := take_of_buffered s.buf r [] s.len E.sizeof_siridb_pkg_t
          (by simpa [buffered] using hbuf) (by simpa using hlen) (by omega)
        exact this
      rcases hr with hr | ⟨hok, hlt⟩
      · omega
      · rw [← hpk] at hok hlt
        have hstep := on_data_fuel_grow E k s (by omega) hok (by omega)
        have hle := buffered_length_le s r hbuf hlen
        by_cases hsz : s.size <
            E.sizeof_siridb_pkg_t + E.pkg_len (s.buf.take E.sizeof_siridb_pkg_t)
        · rw [if_pos hsz, if_pos (hmalloc _)] at hstep
          refine ⟨_, [], hstep, ?_, hlen, by simp, rfl, by simp, rfl, rfl, rfl⟩
          simp only [buffered]
          rw [take_realloc s.buf s.len _ hle (by omega)]
          exact hbuf
        · rw [if_neg hsz] at hstep
          exact ⟨s, [], hstep, hbuf, hlen, by simp, rfl, by simp, rfl, rfl, rfl⟩
  | cons f fs ih =>
    intro hvalid r hr fuel s hbuf hlen hfuel
    have hf : valid_frame E f := hvalid f (List.mem_cons_self _ _)
    have hfs : ∀ g ∈ fs, valid_frame E g := fun g hg => hvalid g (List.mem_cons_of_mem _ hg)
    obtain ⟨k, rfl⟩ : ∃ k, fuel = k + 1 := ⟨fuel - 1, by omega⟩
    simp only [List.flatten_cons, List.append_assoc] at hbuf hlen
    have hflen := valid_frame_length E f hf
    have hlen2 : s.len = f.length + (fs.flatten ++ r).length := by
      simpa using hlen
    have hpk : s.buf.take E.sizeof_siridb_pkg_t = f.take E.sizeof_siridb_pkg_t :=
      take_of_buffered s.buf f (fs.flatten ++ r) s.len E.sizeof_siridb_pkg_t hbuf hlen hflen
    have htot : E.sizeof_siridb_pkg_t + E.pkg_len (s.buf.take E.sizeof_siridb_pkg_t)
        = f.length := by rw [hpk]; exact hf.2.2.symm
    have hwhole : s.buf.take f.length = f := by
      have := take_of_buffered s.buf f (fs.flatten ++ r) s.len f.length hbuf hlen (le_refl _)
      simpa using this
    have hok : ¬ invalid_pkg E (s.buf.take E.sizeof_siridb_pkg_t) := by
      rw [hpk]; exact valid_frame_not_invalid E f hf
    have hstep := on_data_fuel_pkg E k s (by omega) hok (by omega)
    rw [htot] at hstep
    by_cases hrest : 0 < s.len - f.length
    · rw [if_pos hrest] at hstep
      have hb2 : buffered (compacted E s f.length) = fs.flatten ++ r := by
        simp only [buffered, compacted, after_pkg]
        exact take_memmove s.buf f (fs.flatten ++ r) s.len hbuf hlen
      have hl2 : (compacted E s f.length).len = (fs.flatten ++ r).length := by
        simp only [compacted, after_pkg]; omega
      obtain ⟨s', t, hrun, h1, h2, h3, h4, h5, h6, h7, h8⟩ :=
        ih hfs r hr k (compacted E s f.length) hb2 hl2 (by rw [hl2]; omega)
      refine ⟨s', pkg_events E s f.length ++ t, by rw [hstep]; exact hrun, h1, h2,
        ?_, ?_, ?_, ?_, ?_, ?_⟩
      · rw [h3]
        simp only [compacted, after_pkg, List.append_assoc]
      · rw [on_pkgs_append, h4, on_pkgs_pkg_events, hwhole]
        rfl
      · intro e he
        rcases List.mem_append.1 he with he | he
        · exact dispatch_pkg_events E s f.length e he
        · exact h5 e he
      · rw [h6]; rfl
      · rw [h7]; rfl
      · rw [h8]; rfl
    · rw [if_neg hrest] at hstep
      have hz : (fs.flatten ++ r).length = 0 := by omega
      have hnil : fs.flatten ++ r = [] := List.length_eq_zero.1 hz
      have hr0 : r = [] := (List.append_eq_nil.1 hnil).2
      have hflat : fs.flatten = [] := (List.append_eq_nil.1 hnil).1
      have hfs0 : fs = [] := by
        cases fs with
        | nil => rfl
        | cons g gs =>
          have hg := valid_frame_length E g (hfs g (List.mem_cons_self _ _))
          simp only [List.flatten_cons] at hflat
          have hg0 : g = [] := (List.append_eq_nil.1 hflat).1
          rw [hg0] at hg
          simp at hg
          omega
      have hlen0 : s.len - f.length = 0 := by omega
      subst hr0 hfs0
      refine ⟨after_pkg E s f.length, pkg_events E s f.length, hstep, ?_, ?_, ?_, ?_, ?_,
        rfl, rfl, rfl⟩
      · simp only [buffered, after_pkg]
        rw [hlen0]; rfl
      · simp only [after_pkg]; simp; omega
      · simp only [after_pkg]
      · rw [on_pkgs_pkg_events, hwhole]
      · exact dispatch_pkg_events E s f.length

/-- A cut through a concatenation of frames: whole frames, then the start of
the next frame. -/
theorem frames_cut (E : Ext) :
    ∀ (frames : List (List Nat)), (∀ f ∈ frames, valid_frame E f) →
    ∀ (p q : List Nat), p ++ q = frames.flatten →
    ∃ fs1 fs2 r, frames = fs1 ++ fs2 ∧ p = fs1.flatten ++ r ∧ r ++ q = fs2.flatten ∧
      (∀ f fs3, fs2 = f :: fs3 → r.length < f.length) := by
  intro frames
  induction frames with
  | nil =>
    intro _ p q h
    simp only [List.flatten_nil, List.append_eq_nil] at h
    refine ⟨[], [], [], rfl, by simp [h.1], by simp [h.2], ?_⟩
    intro f fs3 hc
    exact List.noConfusion hc
  | cons f fs ih =>
    intro hvalid p q h
    simp only [List.flatten_cons] at h
    by_cases hp : p.length < f.length
    · refine ⟨[], f :: fs, p, rfl, by simp, by simpa using h, ?_⟩
      intro g fs3 hc
      cases hc
      exact hp
    · have hp2 : f.length ≤ p.length := by omega
      have hex : ∃ c, p = f ++ c ∧ c ++ q = fs.flatten := by
        rcases List.append_eq_append_iff.1 h with ⟨a, ha, hb⟩ | ⟨c, hc, hd⟩
        · have hlen := congrArg List.length ha
          simp only [List.length_append] at hlen
          have ha0 : a = [] := List.length_eq_zero.1 (by omega)
          subst ha0
          simp only [List.append_nil, List.nil_append] at ha hb
          exact ⟨[], by simp [ha], by simpa using hb⟩
        · exact ⟨c, hc, hd.symm⟩
      obtain ⟨c, hc1, hc2⟩ := hex
      obtain ⟨fs1, fs2, r, h1, h2, h3, h4⟩ :=
        ih (fun g hg => hvalid g (List.mem_cons_of_mem _ hg)) c q hc2
      refine ⟨f :: fs1, fs2, r, by simp [h1], ?_, h3, h4⟩
      rw [hc1, h2]
      simp

/-- The start of a valid frame is a place where `suv__on_data` waits. -/
theorem incomplete_of_cut (E : Ext) (hpos : 0 < E.sizeof_siridb_pkg_t)
    (fs2 : List (List Nat)) (hvalid : ∀ f ∈ fs2, valid_frame E f) (r q : List Nat)
    (h3 : r ++ q = fs2.flatten) (h4 : ∀ f fs3, fs2 = f :: fs3 → r.length < f.length) :
    incomplete E r := by
  cases fs2 with
  | nil =>
    simp only [List.flatten_nil, List.append_eq_nil] at h3
    left
    rw [h3.1]
    exact hpos
  | cons f fs3 =>
    have hlt := h4 f fs3 rfl
    have hf := hvalid f (List.mem_cons_self _ _)
    simp only [List.flatten_cons] at h3
    by_cases hshort : r.length < E.sizeof_siridb_pkg_t
    · left; exact hshort
    · right
      have hk : E.sizeof_siridb_pkg_t ≤ r.length := by omega
      have hfl := valid_frame_length E f hf
      have htake : r.take E.sizeof_siridb_pkg_t = f.take E.sizeof_siridb_pkg_t := by
        have h5 := congrArg (List.take E.sizeof_siridb_pkg_t) h3
        rw [List.take_append_of_le_length hk, List.take_append_of_le_length hfl] at h5
        exact h5
      rw [htake]
      refine ⟨valid_frame_not_invalid E f hf, ?_⟩
      have := hf.2.2
      omega

/-- One read of a chunk: the chunk lands behind the buffered bytes, and
`suv__on_data` runs on the longer buffer. -/
theorem uv_read_chunk (E : Ext) (hmalloc : ∀ n, E.malloc_ok n = true) (s : suv_buf_t)
    (r : List Nat) (hbuf : buffered s = r) (hlen : s.len = r.length) (sugsz : Nat)
    (c : List Nat) :
    ∃ s1, uv_read E s (Read.chunk sugsz c) =
        suv__on_data_fuel E (s.len + c.length + 1) s1 0 ∧
      buffered s1 = r ++ c ∧ s1.len = (r ++ c).length ∧ s1.trace = s.trace ∧
      s1.data = s.data ∧ s1.onclose = s.onclose ∧ s1.onerror = s.onerror := by
  have hle := buffered_length_le s r hbuf hlen
  unfold buffered at hbuf
  by_cases hc : s.len = 0 ∧ s.size ≠ sugsz
  · have hr : r = [] := List.length_eq_zero.1 (by omega)
    subst hr
    refine ⟨{ s with buf := c ++ (List.replicate sugsz 0).drop c.length, size := sugsz,
                     len := c.length }, ?_, ?_, ?_, rfl, rfl, rfl, rfl⟩
    · simp only [uv_read, suv__alloc_buf, if_pos hc, hmalloc, if_true, suv__on_data, uv_fill,
        Int.toNat_ofNat, on_data_fuel_bump]
      simp [hc.1]
    · simp [buffered]
    · simp
  · refine ⟨{ s with buf := s.buf.take s.len ++ c ++ s.buf.drop (s.len + c.length),
                     len := s.len + c.length }, ?_, ?_, ?_, rfl, rfl, rfl, rfl⟩
    · simp only [uv_read, suv__alloc_buf, if_neg hc, suv__on_data, uv_fill,
        Int.toNat_ofNat, on_data_fuel_bump]
    · simp only [buffered]
      rw [hbuf, hlen, ← List.length_append, List.take_left]
    · simp [hlen]

/-- Reads of chunks that together carry whole valid frames: every frame is
handed to `siridb_on_pkg`, in order, and nothing stays buffered. -/
theorem uv_reads_frames (E : Ext) (hpos : 0 < E.sizeof_siridb_pkg_t)
    (hmalloc : ∀ n, E.malloc_ok n = true) :
    ∀ (chunks : List (Nat × List Nat)) (frames : List (List Nat)) (s : suv_buf_t)
      (r : List Nat),
      (∀ f ∈ frames, valid_frame E f) → buffered s = r → s.len = r.length →
      r ++ (chunks.map Prod.snd).flatten = frames.flatten →
      (∀ f fs3, frames = f :: fs3 → r.length < f.length) →
      ∃ s' t, uv_reads E s (chunks.map (fun c => Read.chunk c.1 c.2)) = some s' ∧
        s'.trace = s.trace ++ t ∧ on_pkgs t = frames ∧ s'.len = 0 ∧
        (∀ e ∈ t, dispatch_event e = true) ∧ s'.data = s.data := by
  intro chunks
  induction chunks with
  | nil =>
    intro frames s r _ _ hlen hcat hwait
    simp only [List.map_nil, List.flatten_nil, List.append_nil] at hcat
    have hfr : frames = [] := by
      cases frames with
      | nil => rfl
      | cons f fs3 =>
        have h1 := hwait f fs3 rfl
        have h2 := congrArg List.length hcat
        simp only [List.flatten_cons, List.length_append] at h2
        omega
    subst hfr
    simp only [List.flatten_nil] at hcat
    subst hcat
    exact ⟨s, [], rfl, by simp, rfl, by simpa using hlen, by simp, rfl⟩
  | cons c rest ih =>
    intro frames s r hvalid hbuf hlen hcat _
    obtain ⟨s1, hread, hb1, hl1, ht1, hd1, _, _⟩ :=
      uv_read_chunk E hmalloc s r hbuf hlen c.1 c.2
    simp only [List.map_cons, List.flatten_cons] at hcat
    rw [← List.append_assoc] at hcat
    obtain ⟨fs1, fs2, r2, hsplit, hp, hq, hwait2⟩ :=
      frames_cut E frames hvalid (r ++ c.2) ((rest.map Prod.snd).flatten) hcat
    have hv1 : ∀ f ∈ fs1, valid_frame E f := fun f hf =>
      hvalid f (by rw [hsplit]; exact List.mem_append_left _ hf)
    have hv2 : ∀ f ∈ fs2, valid_frame E f := fun f hf =>
      hvalid f (by rw [hsplit]; exact List.mem_append_right _ hf)
    have hinc := incomplete_of_cut E hpos fs2 hv2 r2 _ hq hwait2
    obtain ⟨s2, t1, hrun, hb2, hl2, ht2, hp2, he2, hd2, _, _⟩ :=
      on_data_fuel_drain E hpos hmalloc fs1 hv1 r2 hinc (s.len + c.2.length + 1) s1
        (by rw [hb1, hp]) (by rw [hl1, hp]) (by rw [hl1, hlen]; simp)
    obtain ⟨s3, t2, hrest, ht3, hp3, hl3, he3, hd3⟩ :=
      ih fs2 s2 r2 hv2 hb2 hl2 hq hwait2
    refine ⟨s3, t1 ++ t2, ?_, ?_, ?_, hl3, ?_, ?_⟩
    · simp only [List.map_cons, uv_reads]
      rw [hread, hrun]
      exact hrest
    · rw [ht3, ht2, ht1, List.append_assoc]
    · rw [on_pkgs_append, hp2, hp3, hsplit]
    · intro e he
      rcases List.mem_append.1 he with he | he
      · exact he2 e he
      · exact he3 e he
    · rw [hd3, hd2, hd1]

/-- On a connection with a handle, `suv_close` returns; it touches only the
handle's closing flag and the trace. -/
theorem suv_close_some (s : suv_buf_t) (tcp : uv_tcp_t) (hdata : s.data = some tcp)
    (msg : Option String) :
    suv_close s msg = some { s with data := some { closing := true },
                                    trace := s.trace ++ close_events s tcp.closing msg } := by
  cases s with
  | mk onclose onerror buf len size queue data trace =>
    simp only at hdata
    subst hdata
    cases tcp with
    | mk closing =>
      cases closing <;> cases onclose <;> simp [suv_close, close_events]

theorem on_pkgs_close_events (s : suv_buf_t) (closing : Bool) (msg : Option String) :
    on_pkgs (close_events s closing msg) = [] := by
  unfold close_events
  split_ifs <;> simp [on_pkgs]

theorem cb_count_close_events (pid : Nat) (s : suv_buf_t) (closing : Bool)
    (msg : Option String) : cb_count pid (close_events s closing msg) = 0 := by
  unfold close_events
  split_ifs <;> simp [cb_count]

/-- The depth bound does not matter once it exceeds the buffered length. -/
theorem on_data_fuel_indep (E : Ext) (hpos : 0 < E.sizeof_siridb_pkg_t) :
    ∀ (k1 k2 : Nat) (s : suv_buf_t), s.len < k1 → s.len < k2 →
      suv__on_data_fuel E k1 s 0 = suv__on_data_fuel E k2 s 0 := by
  intro k1
  induction k1 with
  | zero => intro k2 s h1; omega
  | succ a ih =>
    intro k2 s h1 h2
    obtain ⟨b, rfl⟩ : ∃ b, k2 = b + 1 := ⟨k2 - 1, by omega⟩
    by_cases hshort : s.len < E.sizeof_siridb_pkg_t
    · rw [on_data_fuel_short E a s hshort, on_data_fuel_short E b s hshort]
    · by_cases hbad : invalid_pkg E (s.buf.take E.sizeof_siridb_pkg_t)
      · rw [on_data_fuel_invalid E a s (by omega) hbad,
          on_data_fuel_invalid E b s (by omega) hbad]
      · by_cases hlt : s.len <
            E.sizeof_siridb_pkg_t + E.pkg_len (s.buf.take E.sizeof_siridb_pkg_t)
        · rw [on_data_fuel_grow E a s (by omega) hbad hlt,
            on_data_fuel_grow E b s (by omega) hbad hlt]
        · rw [on_data_fuel_pkg E a s (by omega) hbad (by omega),
            on_data_fuel_pkg E b s (by omega) hbad (by omega)]
          by_cases hrest : 0 < s.len -
              (E.sizeof_siridb_pkg_t + E.pkg_len (s.buf.take E.sizeof_siridb_pkg_t))
          · rw [if_pos hrest, if_pos hrest]
            apply ih
            · simp only [compacted, after_pkg]; omega
            · simp only [compacted, after_pkg]; omega
          · rw [if_neg hrest, if_neg hrest]

/-- A call of `suv__on_data` with `n` new bytes, as the bounded recursion on
the buffer with `len` advanced. -/
theorem on_data_eq_fuel (E : Ext) (s : suv_buf_t) (n : Nat) :
    suv__on_data E s (n : Int) =
      suv__on_data_fuel E (s.len + n + 1) { s with len := s.len + n } 0 := by
  simp only [suv__on_data, Int.toNat_ofNat, on_data_fuel_bump]

/-- A call of `suv__on_data` with no new bytes, at any sufficient bound. -/
theorem on_data_zero_eq_fuel (E : Ext) (hpos : 0 < E.sizeof_siridb_pkg_t) (s : suv_buf_t)
    (k : Nat) (hk : s.len < k) : suv__on_data E s 0 = suv__on_data_fuel E k s 0 := by
  have h := on_data_eq_fuel E s 0
  simp only [Nat.cast_zero, Nat.add_zero] at h
  rw [h]
  exact on_data_fuel_indep E hpos _ _ s (by omega) hk

/-- What a call of `suv__on_data` returns keeps the trace it started from. -/
theorem on_data_fuel_trace (E : Ext) :
    ∀ (fuel : Nat) (s s' : suv_buf_t), suv__on_data_fuel E fuel s 0 = some s' →
      ∃ t, s'.trace = s.trace ++ t := by
  intro fuel
  induction fuel with
  | zero => intro s s' h; simp [suv__on_data_fuel] at h
  | succ k ih =>
    intro s s' h
    by_cases hshort : s.len < E.sizeof_siridb_pkg_t
    · rw [on_data_fuel_short E k s hshort] at h
      cases h
      exact ⟨[], by simp⟩
    · by_cases hbad : invalid_pkg E (s.buf.take E.sizeof_siridb_pkg_t)
      · rw [on_data_fuel_invalid E k s (by omega) hbad] at h
        cases hd : s.data with
        | none => simp [suv_close, hd] at h
        | some tcp =>
          rw [suv_close_some s tcp hd] at h
          cases h
          exact ⟨_, rfl⟩
      · by_cases hlt : s.len <
            E.sizeof_siridb_pkg_t + E.pkg_len (s.buf.take E.sizeof_siridb_pkg_t)
        · rw [on_data_fuel_grow E k s (by omega) hbad hlt] at h
          split_ifs at h
          · cases h; exact ⟨[], by simp⟩
          · cases h; exact ⟨[], by simp⟩
        · rw [on_data_fuel_pkg E k s (by omega) hbad (by omega)] at h
          split_ifs at h
          · obtain ⟨t, ht⟩ := ih _ s' h
            refine ⟨pkg_events E s (E.sizeof_siridb_pkg_t +
              E.pkg_len (s.buf.take E.sizeof_siridb_pkg_t)) ++ t, ?_⟩
            rw [ht]
            simp only [compacted, after_pkg, List.append_assoc]
          · cases h
            exact ⟨pkg_events E s _, rfl⟩

/-! ## Reassembly -/

/-- C1, frame reassembly exactness: for every list of valid frames and every
way of cutting their concatenation into chunks, feeding the chunks in order
through `suv__alloc_buf` and `suv__on_data` on a fresh buffer returns, and the
packages handed to `siridb_on_pkg` are exactly the frames, byte for byte and in
the original order; nothing stays buffered. The header has at least one byte
and allocations succeed. -/
theorem frame_reassembly_exact (E : Ext) (hpos : 0 < E.sizeof_siridb_pkg_t)
    (hmalloc : ∀ n, E.malloc_ok n = true) (queue : List Nat) (data : Option uv_tcp_t)
    (frames : List (List Nat)) (hvalid : ∀ f ∈ frames, valid_frame E f)
    (chunks : List (Nat × List Nat))
    (hsplit : (chunks.map Prod.snd).flatten = frames.flatten) :
    ∃ s', uv_reads E (suv_buf_create queue data)
        (chunks.map (fun c => Read.chunk c.1 c.2)) = some s' ∧
      on_pkgs s'.trace = frames ∧ s'.len = 0 := by
  have hwait : ∀ f fs3, frames = f :: fs3 → ([] : List Nat).length < f.length := by
    intro f fs3 hfr
    have := valid_frame_length E f (hvalid f (by rw [hfr]; exact List.mem_cons_self _ _))
    simp only [List.length_nil]
    omega
  obtain ⟨s', t, hrun, ht, hp, hl, _, _⟩ :=
    uv_reads_frames E hpos hmalloc chunks frames (suv_buf_create queue data) []
      hvalid rfl rfl (by simpa using hsplit) hwait
  refine ⟨s', hrun, ?_, hl⟩
  rw [ht, on_pkgs_append, hp]
  rfl

/-- Two frames cut in the middle of the first header and in the middle of the
second header, and the same two frames in a single chunk. -/
theorem frame_reassembly_exact_witness :
    (∃ s', uv_reads libsiridb (suv_buf_create [7, 8] (some { closing := false }))
        ([(16, frameA.take 3), (16, frameA.drop 3 ++ frameB.take 4),
          (16, frameB.drop 4), (65536, frameA ++ frameB)].map
            (fun c => Read.chunk c.1 c.2)) = some s' ∧
      on_pkgs s'.trace = [frameA, frameB, frameA, frameB] ∧ s'.len = 0) :=
  frame_reassembly_exact libsiridb (by decide) (fun _ => rfl) [7, 8]
    (some { closing := false }) [frameA, frameB, frameA, frameB] (by decide) _ (by decide)

/-- C4, idempotent compaction: when the bytes buffered at a call of
`suv__on_data` are complete valid frames `fs` followed by bytes `r` at which
the call waits (no framing violation), the call returns, every frame of `fs`
has been handed to `siridb_on_pkg`, `len` is the length of `r`, the bytes
`[0, len)` of the storage are exactly `r`, and the connection is as it was. -/
theorem idempotent_compaction (E : Ext) (hpos : 0 < E.sizeof_siridb_pkg_t)
    (hmalloc : ∀ n, E.malloc_ok n = true) (s : suv_buf_t) (n : Nat)
    (fs : List (List Nat)) (r : List Nat) (hvalid : ∀ f ∈ fs, valid_frame E f)
    (hr : incomplete E r) (hbuf : s.buf.take (s.len + n) = fs.flatten ++ r)
    (hlen : s.len + n = (fs.flatten ++ r).length) :
    ∃ s', suv__on_data E s n = some s' ∧ on_pkgs s'.trace = on_pkgs s.trace ++ fs ∧
      s'.len = r.length ∧ s'.buf.take s'.len = r ∧ s'.data = s.data := by
  obtain ⟨s', t, hrun, hb, hl, ht, hp, _, hd, _, _⟩ :=
    on_data_fuel_drain E hpos hmalloc fs hvalid r hr (s.len + n + 1)
      { s with len := s.len + n } hbuf hlen (by simp)
  refine ⟨s', ?_, ?_, hl, hb, hd⟩
  · rw [on_data_eq_fuel]; exact hrun
  · rw [ht, on_pkgs_append, hp]

/-- Two frames and the first three bytes of a third arrive behind four
buffered bytes of the first frame. -/
theorem idempotent_compaction_witness :
    (∃ s', suv__on_data libsiridb
        { (fresh [7, 8]) with
          buf := frameA ++ frameB ++ frameA.take 3 ++ List.replicate 10 0,
          size := 32, len := 4 } (18 : Nat) = some s' ∧
      on_pkgs s'.trace = on_pkgs (fresh [7, 8]).trace ++ [frameA, frameB] ∧
      s'.len = (frameA.take 3).length ∧ s'.buf.take s'.len = frameA.take 3 ∧
      s'.data = (fresh [7, 8]).data) :=
  idempotent_compaction libsiridb (by decide) (fun _ => rfl)
    { (fresh [7, 8]) with
      buf := frameA ++ frameB ++ frameA.take 3 ++ List.replicate 10 0,
      size := 32, len := 4 } 18 [frameA, frameB] (frameA.take 3) (by decide) (by decide)
    (by decide) (by decide)

theorem cb_count_dispatch (pid : Nat) :
    ∀ (t : List Event), (∀ e ∈ t, dispatch_event e = true) → cb_count pid t = 0 := by
  intro t
  induction t with
  | nil => intro _; rfl
  | cons e t ih =>
    intro h
    have he := h e (List.mem_cons_self _ _)
    have ht := ih (fun x hx => h x (List.mem_cons_of_mem _ hx))
    cases e <;> simp [dispatch_event] at he <;> simp [cb_count, ht]

theorem pkg_events_ne_close_events (E : Ext) (s s1 : suv_buf_t) (k : Nat) (t : List Event)
    (c : Bool) (msg : Option String) : pkg_events E s k ++ t ≠ close_events s1 c msg := by
  unfold pkg_events close_events
  split_ifs <;> simp

/-- On a halted buffer every read returns, leaves the buffer halted and hands
no package over. -/
theorem uv_read_halted (E : Ext) (hpos : 0 < E.sizeof_siridb_pkg_t) (s : suv_buf_t)
    (h : halted E s) (r : Read) :
    ∃ s', uv_read E s r = some s' ∧ halted E s' ∧ on_pkgs s'.trace = on_pkgs s.trace := by
  obtain ⟨⟨tcp, hd⟩, h1, h2, h3⟩ := h
  cases r with
  | chunk sugsz c =>
    have hna : ¬ (s.len = 0 ∧ s.size ≠ sugsz) := by omega
    have htk : (s.buf.take s.len ++ c ++ s.buf.drop (s.len + c.length)).take
        E.sizeof_siridb_pkg_t = s.buf.take E.sizeof_siridb_pkg_t := by
      rw [List.append_assoc, List.take_append_of_le_length (by simp; omega), List.take_take,
        Nat.min_eq_left h1]
    have hrun : uv_read E s (Read.chunk sugsz c) =
        suv_close { s with buf := s.buf.take s.len ++ c ++ s.buf.drop (s.len + c.length),
                           len := s.len + c.length }
          (some "invalid package, connection closed") := by
      simp only [uv_read, suv__alloc_buf, if_neg hna, uv_fill, on_data_eq_fuel]
      exact on_data_fuel_invalid E _ _ (by simp only []; omega) (by simp only []; rw [htk]; exact h3)
    rw [hrun, suv_close_some
      { s with buf := s.buf.take s.len ++ c ++ s.buf.drop (s.len + c.length),
               len := s.len + c.length } tcp hd]
    refine ⟨_, rfl, ⟨⟨_, rfl⟩, by simp only []; omega, by simp; omega, ?_⟩, ?_⟩
    · simp only []
      rw [htk]; exact h3
    · simp only [on_pkgs_append, on_pkgs_close_events, List.append_nil]
  | fail sugsz k =>
    have hna : ¬ (s.len = 0 ∧ s.size ≠ sugsz) := by omega
    have hrun : uv_read E s (Read.fail sugsz k) =
        suv_close s (if Int.negSucc k ≠ E.UV_EOF then some (E.uv_strerror (Int.negSucc k))
          else none) := by
      have hneg : Int.negSucc k < 0 := Int.negSucc_lt_zero k
      simp only [uv_read, suv__alloc_buf, if_neg hna, suv__on_data, suv__on_data_fuel, hneg,
        if_true]
    rw [hrun, suv_close_some s tcp hd]
    refine ⟨_, rfl, ⟨⟨_, rfl⟩, h1, h2, h3⟩, ?_⟩
    simp only [on_pkgs_append, on_pkgs_close_events, List.append_nil]

theorem uv_reads_halted (E : Ext) (hpos : 0 < E.sizeof_siridb_pkg_t) :
    ∀ (rs : List Read) (s : suv_buf_t), halted E s →
      ∃ s', uv_reads E s rs = some s' ∧ on_pkgs s'.trace = on_pkgs s.trace := by
  intro rs
  induction rs with
  | nil => intro s _; exact ⟨s, rfl, rfl⟩
  | cons r rs ih =>
    intro s h
    obtain ⟨s1, hr, hh, hp⟩ := uv_read_halted E hpos s h r
    obtain ⟨s2, hrs, hp2⟩ := ih s1 hh
    refine ⟨s2, ?_, by rw [hp2, hp]⟩
    simp only [uv_reads, hr]
    exact hrs

/-- C2, fatal framing halts extraction: when a call of `suv__on_data` finds,
at the start of the buffer, a complete header whose check bit fails or whose
declared length exceeds `MAX_PKG_SIZE`, neither that call nor any sequence of
later reads (chunks of any content, read failures) hands a package to
`siridb_on_pkg`: all of them return, with the same packages handed over as
before the call. The delivered bytes lie inside the storage and the
connection has its handle. -/
theorem fatal_framing_halts (E : Ext) (hpos : 0 < E.sizeof_siridb_pkg_t) (s : suv_buf_t)
    (tcp : uv_tcp_t) (hdata : s.data = some tcp) (n : Nat)
    (hwf : s.len + n ≤ s.buf.length) (hsee : E.sizeof_siridb_pkg_t ≤ s.len + n)
    (hbad : invalid_pkg E (s.buf.take E.sizeof_siridb_pkg_t)) (rs : List Read) :
    ∃ s1 s2, suv__on_data E s n = some s1 ∧ on_pkgs s1.trace = on_pkgs s.trace ∧
      uv_reads E s1 rs = some s2 ∧ on_pkgs s2.trace = on_pkgs s.trace := by
  have hrun : suv__on_data E s n =
      suv_close { s with len := s.len + n } (some "invalid package, connection closed") := by
    rw [on_data_eq_fuel]
    exact on_data_fuel_invalid E _ _ hsee hbad
  rw [suv_close_some { s with len := s.len + n } tcp hdata] at hrun
  have hp1 : on_pkgs (s.trace ++ close_events { s with len := s.len + n } tcp.closing
      (some "invalid package, connection closed")) = on_pkgs s.trace := by
    simp only [on_pkgs_append, on_pkgs_close_events, List.append_nil]
  obtain ⟨s2, hrs, hp2⟩ := uv_reads_halted E hpos rs _
    (show halted E
      { s with
        len := s.len + n, data := some { closing := true },
        trace := s.trace ++ close_events { s with len := s.len + n } tcp.closing
          (some "invalid package, connection closed") } from
      ⟨⟨_, rfl⟩, hsee, hwf, hbad⟩)
  exact ⟨_, s2, hrun, hp1, hrs, by rw [hp2]; exact hp1⟩

/-- A header with a failing validity marker arrives; a valid frame, a read
failure and another valid frame follow. -/
theorem fatal_framing_halts_witness :
    (∃ s1 s2, suv__on_data libsiridb
        { (fresh [7, 8]) with buf := badHeader ++ List.replicate 8 0, size := 16 }
        (8 : Nat) = some s1 ∧
      on_pkgs s1.trace = on_pkgs (fresh [7, 8]).trace ∧
      uv_reads libsiridb s1
        [Read.chunk 65536 frameA, Read.fail 65536 103, Read.chunk 65536 frameB] = some s2 ∧
      on_pkgs s2.trace = on_pkgs (fresh [7, 8]).trace) :=
  fatal_framing_halts libsiridb (by decide)
    { (fresh [7, 8]) with buf := badHeader ++ List.replicate 8 0, size := 16 }
    { closing := false } rfl 8 (by decide) (by decide) (by decide) _

/-- C3, maximum payload boundary: on a live connection with a complete header
at the start of the buffer, `suv__on_data` closes with "invalid package,
connection closed" exactly when the check bit fails or the declared length
exceeds `MAX_PKG_SIZE`. With a valid check bit, a declared length of 209715200
is not rejected, and while that frame is incomplete the call returns with the
connection open and nothing added to the trace; a declared length of 209715201
is rejected: the call returns with the handle closing, the close hook (when
set) called with that message, and no package handed over. -/
theorem max_payload_boundary (E : Ext) (s : suv_buf_t) (tcp : uv_tcp_t)
    (hdata : s.data = some tcp) (hlive : tcp.closing = false) (n : Nat)
    (hsee : E.sizeof_siridb_pkg_t ≤ s.len + n) :
    (suv__on_data E s n =
        suv_close { s with len := s.len + n } (some "invalid package, connection closed") ↔
      (E.siridb_pkg_check_bit (s.buf.take E.sizeof_siridb_pkg_t) = false ∨
        MAX_PKG_SIZE < E.pkg_len (s.buf.take E.sizeof_siridb_pkg_t))) ∧
    (E.siridb_pkg_check_bit (s.buf.take E.sizeof_siridb_pkg_t) = true →
      E.pkg_len (s.buf.take E.sizeof_siridb_pkg_t) = 209715200 →
      suv__on_data E s n ≠
          suv_close { s with len := s.len + n } (some "invalid package, connection closed") ∧
        (s.len + n < E.sizeof_siridb_pkg_t + 209715200 →
          E.malloc_ok (E.sizeof_siridb_pkg_t + 209715200) = true →
          ∃ s', suv__on_data E s n = some s' ∧ s'.data = some tcp ∧ s'.trace = s.trace ∧
            s'.len = s.len + n)) ∧
    (E.siridb_pkg_check_bit (s.buf.take E.sizeof_siridb_pkg_t) = true →
      E.pkg_len (s.buf.take E.sizeof_siridb_pkg_t) = 209715201 →
      suv__on_data E s n = some { s with
        len := s.len + n, data := some { closing := true },
        trace := s.trace ++
          (if s.onclose = true then [Event.onclose "invalid package, connection closed"]
           else []) ++ [Event.uv_close] }) := by
  have hcl := suv_close_some { s with len := s.len + n } tcp hdata
    (some "invalid package, connection closed")
  have hiff : suv__on_data E s n =
        suv_close { s with len := s.len + n } (some "invalid package, connection closed") ↔
      invalid_pkg E (s.buf.take E.sizeof_siridb_pkg_t) := by
    constructor
    · intro heq
      by_contra hok
      rw [on_data_eq_fuel, hcl] at heq
      by_cases hlt : s.len + n <
          E.sizeof_siridb_pkg_t + E.pkg_len (s.buf.take E.sizeof_siridb_pkg_t)
      · rw [on_data_fuel_grow E _ { s with len := s.len + n } hsee hok hlt] at heq
        have hne : ∀ x : suv_buf_t, x.data = some tcp →
            some x ≠ some
              { s with
                len := s.len + n, data := some { closing := true },
                trace := s.trace ++ close_events { s with len := s.len + n } tcp.closing
                  (some "invalid package, connection closed") } := by
          intro x hx hxe
          have h1 := congrArg suv_buf_t.data (Option.some.inj hxe)
          rw [hx] at h1
          simp only [Option.some.injEq] at h1
          rw [h1] at hlive
          exact Bool.noConfusion hlive
        split_ifs at heq
        · exact hne _ (by exact hdata) heq
        · exact hne _ (by exact hdata) heq
      · rw [on_data_fuel_pkg E _ { s with len := s.len + n } hsee hok (by simp only []; omega)]
          at heq
        split_ifs at heq
        · obtain ⟨u, hu⟩ := on_data_fuel_trace E _ _ _ heq
          simp only [compacted, after_pkg, List.append_assoc] at hu
          exact pkg_events_ne_close_events E _ _ _ u _ _ (List.append_cancel_left hu).symm
        · have h1 := congrArg suv_buf_t.trace (Option.some.inj heq)
          simp only [after_pkg] at h1
          have h2 := List.append_cancel_left h1
          exact pkg_events_ne_close_events E _ _ _ [] _ _ (by rw [List.append_nil]; exact h2)
    · intro hbad
      rw [on_data_eq_fuel]
      exact on_data_fuel_invalid E _ _ hsee hbad
  refine ⟨hiff, ?_, ?_⟩
  · intro hck hmax
    have hok : ¬ invalid_pkg E (s.buf.take E.sizeof_siridb_pkg_t) := by
      intro hbad
      rcases hbad with hb | hb
      · rw [hck] at hb; exact Bool.noConfusion hb
      · rw [hmax] at hb; simp [MAX_PKG_SIZE] at hb
    refine ⟨fun heq => hok (hiff.1 heq), ?_⟩
    intro hlt hm
    rw [on_data_eq_fuel,
      on_data_fuel_grow E _ { s with len := s.len + n } hsee hok (by simp only []; omega)]
    simp only [hmax, hm, if_true]
    split_ifs
    · exact ⟨_, rfl, hdata, rfl, rfl⟩
    · exact ⟨_, rfl, hdata, rfl, rfl⟩
  · intro _ hmax
    have hbad : invalid_pkg E (s.buf.take E.sizeof_siridb_pkg_t) := by
      right; rw [hmax]; simp [MAX_PKG_SIZE]
    rw [hiff.2 hbad, hcl]
    simp only [close_events, hlive, Bool.false_eq_true, if_false, Option.getD_some,
      List.append_assoc]

/-- The header declaring 209715200 bytes is kept and the connection stays
open; the header declaring 209715201 bytes closes it. -/
theorem max_payload_boundary_witness :
    (∃ s', suv__on_data libsiridb (hooked [7] maxHeader) (8 : Nat) = some s' ∧
      s'.data = some { closing := false } ∧ s'.trace = (hooked [7] maxHeader).trace ∧
      s'.len = (hooked [7] maxHeader).len + 8) ∧
    suv__on_data libsiridb (hooked [7] overHeader) (8 : Nat) =
      some { (hooked [7] overHeader) with
        len := (hooked [7] overHeader).len + 8, data := some { closing := true },
        trace := (hooked [7] overHeader).trace ++
          (if (hooked [7] overHeader).onclose = true then
            [Event.onclose "invalid package, connection closed"] else []) ++
          [Event.uv_close] } :=
  ⟨((max_payload_boundary libsiridb (hooked [7] maxHeader) { closing := false } rfl rfl 8
      (by decide)).2.1 (by decide) (by decide)).2 (by decide) rfl,
   (max_payload_boundary libsiridb (hooked [7] overHeader) { closing := false } rfl rfl 8
      (by decide)).2.2 (by decide) (by decide)⟩

/-- C5, unmatched response is non-fatal: when the buffer starts with a complete
valid frame `f` and `siridb_on_pkg` returns an error for it, `suv__on_data`
goes on as a call with no new bytes on a buffer `s2` in which the only new
calls are `siridb_on_pkg` for `f` and, when the error hook is set, one call of
that hook; the connection handle and the queue are as `siridb_on_pkg` left
them, `len` is smaller by exactly header size plus payload length, and the
bytes that followed `f` stand at the start of the storage. When those bytes
are valid frames and a waiting rest, the call returns with all of them handed
over, the connection as it was, and no request callback run. -/
theorem unmatched_response_nonfatal (E : Ext) (hpos : 0 < E.sizeof_siridb_pkg_t)
    (s : suv_buf_t) (n : Nat) (f rest : List Nat) (hf : valid_frame E f)
    (hbuf : s.buf.take (s.len + n) = f ++ rest) (hlen : s.len + n = (f ++ rest).length)
    (hrc : (E.siridb_on_pkg s.queue f).2 ≠ 0) :
    (∃ s2, suv__on_data E s n = suv__on_data E s2 0 ∧
      s2.trace = s.trace ++ Event.siridb_on_pkg f ::
        (if s.onerror = true then
          [Event.onerror (E.siridb_strerror (E.siridb_on_pkg s.queue f).2)] else []) ∧
      s2.queue = (E.siridb_on_pkg s.queue f).1 ∧ s2.data = s.data ∧
      s2.len = s.len + n - (E.sizeof_siridb_pkg_t + E.pkg_len (f.take E.sizeof_siridb_pkg_t)) ∧
      s2.buf.take s2.len = rest) ∧
    (∀ (fs : List (List Nat)) (r : List Nat), (∀ g ∈ fs, valid_frame E g) → incomplete E r →
      rest = fs.flatten ++ r → (∀ k, E.malloc_ok k = true) →
      ∃ s', suv__on_data E s n = some s' ∧ on_pkgs s'.trace = on_pkgs s.trace ++ f :: fs ∧
        s'.data = s.data ∧ ∀ pid, cb_count pid s'.trace = cb_count pid s.trace) := by
  have hflen := valid_frame_length E f hf
  have hpk : s.buf.take E.sizeof_siridb_pkg_t = f.take E.sizeof_siridb_pkg_t :=
    take_of_buffered s.buf f rest (s.len + n) E.sizeof_siridb_pkg_t hbuf hlen hflen
  have htot : E.sizeof_siridb_pkg_t + E.pkg_len (s.buf.take E.sizeof_siridb_pkg_t)
      = f.length := by rw [hpk]; exact hf.2.2.symm
  have hwhole : s.buf.take f.length = f := by
    have := take_of_buffered s.buf f rest (s.len + n) f.length hbuf hlen (le_refl _)
    simpa using this
  have hok : ¬ invalid_pkg E (s.buf.take E.sizeof_siridb_pkg_t) := by
    rw [hpk]; exact valid_frame_not_invalid E f hf
  have hl2 : s.len + n = f.length + rest.length := by simpa using hlen
  have hstep := on_data_fuel_pkg E (s.len + n) { s with len := s.len + n }
    (by simp only []; omega) hok (by simp only []; omega)
  simp only [htot] at hstep
  have hev : pkg_events E { s with len := s.len + n } f.length =
      Event.siridb_on_pkg f ::
        (if s.onerror = true then
          [Event.onerror (E.siridb_strerror (E.siridb_on_pkg s.queue f).2)] else []) := by
    simp only [pkg_events, hwhole, hrc, ne_eq, not_false_eq_true, true_and]
  constructor
  · by_cases hrest : 0 < s.len + n - f.length
    · refine ⟨compacted E { s with len := s.len + n } f.length, ?_, ?_,
        by simp only [compacted, after_pkg, hwhole], rfl, ?_, ?_⟩
      · rw [on_data_eq_fuel, hstep, if_pos hrest]
        exact (on_data_zero_eq_fuel E hpos _ _
          (by simp only [compacted, after_pkg]; omega)).symm
      · simp only [compacted, after_pkg, hev]
      · simp only [compacted, after_pkg]
        rw [← hpk, htot]
      · simp only [compacted, after_pkg]
        exact take_memmove s.buf f rest (s.len + n) hbuf hlen
    · have hr0 : rest = [] := List.length_eq_zero.1 (by omega)
      refine ⟨after_pkg E { s with len := s.len + n } f.length, ?_, ?_,
        by simp only [after_pkg, hwhole], rfl, ?_, ?_⟩
      · rw [on_data_eq_fuel, hstep, if_neg hrest,
          on_data_zero_eq_fuel E hpos _ 1 (by simp only [after_pkg]; omega),
          on_data_fuel_short E 0 _ (by simp only [after_pkg]; omega)]
      · simp only [after_pkg, hev]
      · simp only [after_pkg]
        rw [← hpk, htot]
      · simp only [after_pkg]
        have : s.len + n - f.length = 0 := by omega
        rw [this, hr0]; rfl
  · intro fs r hv hr hcat hmalloc
    obtain ⟨s', t, hrun, _, _, ht, hp, he, hd, _, _⟩ :=
      on_data_fuel_drain E hpos hmalloc (f :: fs)
        (fun g hg => by
          rcases List.mem_cons.1 hg with h | h
          · rw [h]; exact hf
          · exact hv g h)
        r hr (s.len + n + 1) { s with len := s.len + n }
        (by simp only [buffered, List.flatten_cons, List.append_assoc]; rw [hbuf, hcat])
        (by simp only [List.flatten_cons, List.append_assoc]; rw [hlen, hcat]) (by simp)
    refine ⟨s', by rw [on_data_eq_fuel]; exact hrun, ?_, hd, ?_⟩
    · rw [ht, on_pkgs_append, hp]
    · intro pid
      rw [ht, cb_count_append, cb_count_dispatch pid t he]
      rfl

/-- A response with correlation id 7 arrives while only request 8 is
outstanding, followed by the response to request 8. -/
theorem unmatched_response_nonfatal_witness :
    (∃ s', suv__on_data libsiridb (hooked [8] (frameA ++ frameB)) (19 : Nat) = some s' ∧
      on_pkgs s'.trace = on_pkgs (hooked [8] (frameA ++ frameB)).trace ++ frameA :: [frameB] ∧
      s'.data = (hooked [8] (frameA ++ frameB)).data ∧
      ∀ pid, cb_count pid s'.trace = cb_count pid (hooked [8] (frameA ++ frameB)).trace) :=
  (unmatched_response_nonfatal libsiridb (by decide) (hooked [8] (frameA ++ frameB)) 19
    frameA frameB (by decide) (by decide) (by decide) (by decide)).2 [frameB] [] (by decide)
    (by decide) (by decide) (fun _ => rfl)

/-! ## Closing and the write path -/

/-- C6 fails on the code: request 7 is outstanding, with its write completed
so that the transport holds nothing to cancel, when the application calls
`suv_close` and the close callback `suv__close_tcp` has run; it is still in
the queue and its callback has not run. The same holds when `suv__on_data`
closes on end of stream. -/
theorem teardown_leaves_request :
    (suv_close (hooked [7] []) none).map
        (fun s => ((suv__close_tcp s).queue, cb_count 7 (suv__close_tcp s).trace,
          (suv__close_tcp s).trace)) =
      some ([7], 0, [Event.onclose "connection closed", Event.uv_close]) ∧
    (suv__on_data libsiridb (hooked [7] []) (-4095)).map
        (fun s => ((suv__close_tcp s).queue, cb_count 7 (suv__close_tcp s).trace)) =
      some ([7], 0) := by
  decide

/-- C7, submission without a live transport handle: when `siridb->data` is NULL,
`suv__write` (and so `suv_query` and `suv_insert`) hands nothing to
`uv_write`: the only new call is the request's callback, once, with status
`ERR_SOCK_WRITE`; the request carries that status and its pid has left the
queue. The package carries the pid of its request, as the create functions
set it. -/
theorem write_without_transport (E : Ext) (uvreq_ok : Bool) (s : suv_buf_t)
    (swrite : suv_write_t) (hnull : s.data = none)
    (hpid : swrite.pkg_pid = swrite._req.pid) :
    (suv__write E uvreq_ok s swrite).1.trace =
        s.trace ++ [Event.req_cb swrite._req.pid E.ERR_SOCK_WRITE] ∧
      (suv__write E uvreq_ok s swrite).2._req.status = E.ERR_SOCK_WRITE ∧
      (suv__write E uvreq_ok s swrite).1.queue = queue_pop s.queue swrite._req.pid ∧
      swrite._req.pid ∉ (suv__write E uvreq_ok s swrite).1.queue ∧
      cb_count swrite._req.pid (suv__write E uvreq_ok s swrite).1.trace =
        cb_count swrite._req.pid s.trace + 1 ∧
      suv_query E uvreq_ok s swrite = suv__write E uvreq_ok s swrite ∧
      suv_insert E uvreq_ok s swrite = suv__write E uvreq_ok s swrite := by
  have hw : suv__write E uvreq_ok s swrite = suv_write_error s swrite E.ERR_SOCK_WRITE := by
    simp only [suv__write, hnull]
  rw [hw]
  simp only [suv_write_error, hpid, cb_count_append, cb_count, if_true, queue_pop,
    List.mem_filter, suv_query, suv_insert, hw, and_true, true_and]
  simp

/-- Query 7 is submitted on a connection whose transport slot is NULL. -/
theorem write_without_transport_witness :
    (suv__write libsiridb true (suv_buf_create [7, 8] none) query7).1.trace =
        (suv_buf_create [7, 8] none).trace ++ [Event.req_cb query7._req.pid (-4)] ∧
      (suv__write libsiridb true (suv_buf_create [7, 8] none) query7).2._req.status = -4 ∧
      (suv__write libsiridb true (suv_buf_create [7, 8] none) query7).1.queue = [8] :=
  ⟨(write_without_transport libsiridb true (suv_buf_create [7, 8] none) query7 rfl rfl).1,
   (write_without_transport libsiridb true (suv_buf_create [7, 8] none) query7 rfl rfl).2.1,
   (write_without_transport libsiridb true (suv_buf_create [7, 8] none) query7 rfl rfl).2.2.1⟩

/-- C8 fails on the code: `suv_query` on a connection whose transport slot is
NULL runs the callback of request 7 before it returns. -/
theorem query_completes_synchronously :
    cb_count 7 (suv_buf_create [7] none).trace = 0 ∧
      cb_count 7 (suv_query libsiridb true (suv_buf_create [7] none) query7).1.trace = 1 := by
  decide

/-- C8 as amended: a submission call runs the request's callback before it
returns exactly when it fails at once: `suv_query` and `suv_insert` when the
transport slot is NULL or the allocation of the write request fails,
`suv_connect` when one of its two allocations fails. Otherwise the callback
does not run within the call. -/
theorem completion_synchronous_iff_immediate_failure (E : Ext) (uvreq_ok tcp_ok : Bool)
    (s : suv_buf_t) (swrite : suv_write_t) :
    cb_count swrite._req.pid (suv_query E uvreq_ok s swrite).1.trace =
        cb_count swrite._req.pid s.trace +
          (if s.data = none ∨ uvreq_ok = false then 1 else 0) ∧
      cb_count swrite._req.pid (suv_insert E uvreq_ok s swrite).1.trace =
        cb_count swrite._req.pid s.trace +
          (if s.data = none ∨ uvreq_ok = false then 1 else 0) ∧
      (suv_connect E uvreq_ok tcp_ok { s with data := none } swrite).map
          (fun r => cb_count swrite._req.pid r.1.trace) =
        some (cb_count swrite._req.pid s.trace +
          (if uvreq_ok = false ∨ tcp_ok = false then 1 else 0)) := by
  refine ⟨?_, ?_, ?_⟩
  · cases hd : s.data <;> cases uvreq_ok <;>
      simp [suv_query, suv__write, suv_write_error, hd, cb_count_append, cb_count]
  · cases hd : s.data <;> cases uvreq_ok <;>
      simp [suv_insert, suv__write, suv_write_error, hd, cb_count_append, cb_count]
  · cases uvreq_ok <;> cases tcp_ok <;>
      simp [suv_connect, suv_write_error, cb_count_append, cb_count]

theorem int_neg_of_neg (x : Int) (h1 : x < 0) (h2 : -2147483648 < x) : int_neg x = -x := by
  unfold int_neg
  omega

theorem int_neg_of_pos (x : Int) (h1 : 0 < x) (h2 : x ≤ 2147483648) : int_neg x = -x := by
  unfold int_neg
  omega

/-- C9, transport error translation: for every negative transport status
`status` above `INT_MIN` reported to `suv__write_cb` or `suv__connect_cb`, the
only new call is the request's callback, once, and the request's status is the
positive value `-status`; `suv_strerror` resolves every positive code `c` of an
`int` through `uv_strerror (-c)` and every code `c ≤ 0` through
`siridb_strerror c`, so `suv_strerror` of the request's status is the
transport's message for `status`. -/
theorem transport_error_translation (E : Ext) (uvw_ok : Bool) (s : suv_buf_t)
    (swrite : suv_write_t) (status : Int) (hneg : status < 0)
    (hmin : -2147483648 < status) :
    ((suv__write_cb s swrite status).1.trace =
        s.trace ++ [Event.req_cb swrite._req.pid (-status)] ∧
      (suv__write_cb s swrite status).2._req.status = -status ∧
      0 < (suv__write_cb s swrite status).2._req.status ∧
      suv_strerror E (suv__write_cb s swrite status).2._req.status = E.uv_strerror status) ∧
    ((suv__connect_cb E uvw_ok s swrite status).1.trace =
        s.trace ++ [Event.req_cb swrite._req.pid (-status)] ∧
      (suv__connect_cb E uvw_ok s swrite status).2._req.status = -status ∧
      suv_strerror E (suv__connect_cb E uvw_ok s swrite status).2._req.status =
        E.uv_strerror status) ∧
    (∀ c : Int, 0 < c → c < 2147483648 → suv_strerror E c = E.uv_strerror (-c)) ∧
    (∀ c : Int, c ≤ 0 → suv_strerror E c = E.siridb_strerror c) := by
  have hne : status ≠ 0 := by omega
  have hn := int_neg_of_neg status hneg hmin
  have hpos : 0 < -status := by omega
  have hstr : suv_strerror E (-status) = E.uv_strerror status := by
    simp only [suv_strerror, hpos, gt_iff_lt, if_true]
    rw [int_neg_of_pos (-status) hpos (by omega), neg_neg]
  refine ⟨?_, ?_, ?_, ?_⟩
  · simp only [suv__write_cb, hne, ne_eq, not_false_eq_true, if_true, suv_write_error, hn]
    exact ⟨trivial, trivial, hpos, hstr⟩
  · simp only [suv__connect_cb, hne, ne_eq, not_false_eq_true, if_true, suv_write_error, hn]
    exact ⟨trivial, trivial, hstr⟩
  · intro c h1 h2
    simp only [suv_strerror, h1, gt_iff_lt, if_true]
    rw [int_neg_of_pos c h1 (by omega)]
  · intro c h1
    have : ¬ c > 0 := by omega
    simp only [suv_strerror, this, if_false]

/-- The write of query 7 fails with the transport status -104. -/
theorem transport_error_translation_witness :
    (suv__write_cb (fresh [7]) query7 (-104)).1.trace =
        (fresh [7]).trace ++ [Event.req_cb query7._req.pid (- (-104))] ∧
      (suv__write_cb (fresh [7]) query7 (-104)).2._req.status = - (-104) ∧
      0 < (suv__write_cb (fresh [7]) query7 (-104)).2._req.status ∧
      suv_strerror libsiridb (suv__write_cb (fresh [7]) query7 (-104)).2._req.status =
        libsiridb.uv_strerror (-104) :=
  (transport_error_translation libsiridb true (fresh [7]) query7 (-104) (by decide)
    (by decide)).1

/-- C10 fails on the code: a header with a failing validity marker arrives on
an empty buffer; after the call the buffered length is 8, not zero, and the
header is still at the start of the storage. -/
theorem framing_violation_keeps_bytes :
    (uv_read libsiridb (hooked [7] []) (Read.chunk 16 badHeader)).map
        (fun s => (s.len, s.buf.take 8, s.trace)) =
      some (8, badHeader,
        [Event.onclose "invalid package, connection closed", Event.uv_close]) := by
  decide

/-- C10 as amended: when `suv__on_data` finds a complete header with a failing
check bit or a declared length above `MAX_PKG_SIZE`, it returns without
handing any package over; unless the handle is already closing, the close hook
(when set) is called with "invalid package, connection closed" and the handle
is closed; the storage is untouched and the buffered length stays at what the
call made it, the old length plus the bytes delivered. -/
theorem framing_violation_outcome (E : Ext) (s : suv_buf_t) (tcp : uv_tcp_t)
    (hdata : s.data = some tcp) (n : Nat) (hsee : E.sizeof_siridb_pkg_t ≤ s.len + n)
    (hbad : invalid_pkg E (s.buf.take E.sizeof_siridb_pkg_t)) :
    suv__on_data E s n = some { s with
      len := s.len + n, data := some { closing := true },
      trace := s.trace ++
        (if tcp.closing = true then []
         else (if s.onclose = true then [Event.onclose "invalid package, connection closed"]
           else []) ++ [Event.uv_close]) } := by
  rw [on_data_eq_fuel, on_data_fuel_invalid E (s.len + n) { s with len := s.len + n } hsee hbad,
    suv_close_some { s with len := s.len + n } tcp hdata]
  simp only [close_events, Option.getD_some]

/-- A header with a failing validity marker arrives behind nothing. -/
theorem framing_violation_outcome_witness :
    suv__on_data libsiridb (hooked [7] badHeader) (8 : Nat) =
      some { (hooked [7] badHeader) with
        len := (hooked [7] badHeader).len + 8, data := some { closing := true },
        trace := (hooked [7] badHeader).trace ++
          (if ({ closing := false } : uv_tcp_t).closing = true then []
           else (if (hooked [7] badHeader).onclose = true then
              [Event.onclose "invalid package, connection closed"]
             else []) ++ [Event.uv_close]) } :=
  framing_violation_outcome libsiridb (hooked [7] badHeader) { closing := false } rfl 8
    (by decide) (by decide)

/-! ## Close message, growth and the buffer bound -/

/-- C11, close message: on a connection whose handle is not closing,
`suv_close` closes the handle and calls the close hook, when one is set,
exactly once: with the supplied message, or with "connection closed" when the
message is NULL. On a handle that is already closing it calls nothing and
changes nothing. A read notification with the end-of-stream status closes
with the default message, and one with any other negative status of an `int`
closes with the transport's message for that status. -/
theorem close_message (E : Ext) (s : suv_buf_t) (tcp : uv_tcp_t)
    (hdata : s.data = some tcp) :
    (tcp.closing = false →
      (∀ m : String, suv_close s (some m) = some { s with
        data := some { closing := true },
        trace := s.trace ++ (if s.onclose = true then [Event.onclose m] else []) ++
          [Event.uv_close] }) ∧
      suv_close s none = some { s with
        data := some { closing := true },
        trace := s.trace ++
          (if s.onclose = true then [Event.onclose "connection closed"] else []) ++
          [Event.uv_close] } ∧
      (E.UV_EOF < 0 → suv__on_data E s E.UV_EOF = some { s with
        data := some { closing := true },
        trace := s.trace ++
          (if s.onclose = true then [Event.onclose "connection closed"] else []) ++
          [Event.uv_close] }) ∧
      (∀ n : Int, n < 0 → -2147483648 ≤ n → n ≠ E.UV_EOF →
        suv__on_data E s n = some { s with
          data := some { closing := true },
          trace := s.trace ++
            (if s.onclose = true then [Event.onclose (E.uv_strerror n)] else []) ++
            [Event.uv_close] })) ∧
    (tcp.closing = true → ∀ msg : Option String, suv_close s msg = some s) := by
  have hneg : ∀ n : Int, n < 0 → suv__on_data E s n =
      suv_close s (if n ≠ E.UV_EOF then some (E.uv_strerror n) else none) := by
    intro n hn
    simp only [suv__on_data, suv__on_data_fuel, hn, if_true]
  have hclose : tcp.closing = false → ∀ msg : Option String, suv_close s msg = some { s with
      data := some { closing := true },
      trace := s.trace ++
        (if s.onclose = true then [Event.onclose (msg.getD "connection closed")] else []) ++
        [Event.uv_close] } := by
    intro hlive msg
    rw [suv_close_some s tcp hdata]
    simp only [close_events, hlive, Bool.false_eq_true, if_false, List.append_assoc]
  refine ⟨fun hlive => ⟨fun m => ?_, ?_, fun heof => ?_, fun n hn _ hne => ?_⟩, ?_⟩
  · simpa using hclose hlive (some m)
  · simpa using hclose hlive none
  · rw [hneg _ heof]
    simpa using hclose hlive none
  · rw [hneg n hn]
    simpa [hne] using hclose hlive (some (E.uv_strerror n))
  · intro hclosing msg
    cases s with
    | mk onclose onerror buf len size queue data trace =>
      simp only at hdata
      subst hdata
      cases tcp with
      | mk closing =>
        simp only at hclosing
        subst hclosing
        simp [suv_close]

/-- The application closes a live connection with a message of its own, and
the stream of another live connection ends. -/
theorem close_message_witness :
    suv_close (hooked [7] []) (some "bye") = some { (hooked [7] []) with
        data := some { closing := true },
        trace := (hooked [7] []).trace ++
          (if (hooked [7] []).onclose = true then [Event.onclose "bye"] else []) ++
          [Event.uv_close] } ∧
      suv__on_data libsiridb (hooked [7] []) libsiridb.UV_EOF = some { (hooked [7] []) with
        data := some { closing := true },
        trace := (hooked [7] []).trace ++
          (if (hooked [7] []).onclose = true then [Event.onclose "connection closed"]
           else []) ++
          [Event.uv_close] } :=
  ⟨((close_message libsiridb (hooked [7] []) { closing := false } rfl).1 rfl).1 "bye",
   ((close_message libsiridb (hooked [7] []) { closing := false } rfl).1 rfl).2.2.1
      (by decide)⟩

/-- C12, growth on an incomplete frame: when the header at the start of the
buffer passes the checks and the buffered length (the old `len` plus the bytes
just delivered) is less than header size plus declared payload length,
`suv__on_data` returns with nothing added to the trace, `len` at the buffered
length, the bytes `[0, len)` of the storage as they were, and `size` at least
header size plus payload length: raised to exactly that total when it was
smaller, and left unchanged, with the whole storage, otherwise. When `size`
is raised the storage itself has exactly that total of bytes afterwards; and
when the storage had `size` bytes before the call it has `size` bytes after
it, at least header size plus payload length, and starts with all the bytes
it held before. The buffered bytes lie inside the storage and the
reallocation, when there is one, succeeds. -/
theorem growth_on_incomplete_frame (E : Ext) (s : suv_buf_t) (n : Nat)
    (hsee : E.sizeof_siridb_pkg_t ≤ s.len + n)
    (hbit : E.siridb_pkg_check_bit (s.buf.take E.sizeof_siridb_pkg_t) = true)
    (hmax : E.pkg_len (s.buf.take E.sizeof_siridb_pkg_t) ≤ MAX_PKG_SIZE)
    (hlt : s.len + n < E.sizeof_siridb_pkg_t + E.pkg_len (s.buf.take E.sizeof_siridb_pkg_t))
    (hwf : s.len + n ≤ s.buf.length)
    (hmalloc : s.size < E.sizeof_siridb_pkg_t + E.pkg_len (s.buf.take E.sizeof_siridb_pkg_t) →
      E.malloc_ok (E.sizeof_siridb_pkg_t + E.pkg_len (s.buf.take E.sizeof_siridb_pkg_t)) = true) :
    ∃ s', suv__on_data E s n = some s' ∧ s'.trace = s.trace ∧ s'.len = s.len + n ∧
      s'.buf.take s'.len = s.buf.take (s.len + n) ∧
      E.sizeof_siridb_pkg_t + E.pkg_len (s.buf.take E.sizeof_siridb_pkg_t) ≤ s'.size ∧
      (s.size < E.sizeof_siridb_pkg_t + E.pkg_len (s.buf.take E.sizeof_siridb_pkg_t) →
        s'.size = E.sizeof_siridb_pkg_t + E.pkg_len (s.buf.take E.sizeof_siridb_pkg_t)) ∧
      (E.sizeof_siridb_pkg_t + E.pkg_len (s.buf.take E.sizeof_siridb_pkg_t) ≤ s.size →
        s'.size = s.size ∧ s'.buf = s.buf) ∧
      s'.data = s.data ∧ s'.queue = s.queue ∧
      (s.size < E.sizeof_siridb_pkg_t + E.pkg_len (s.buf.take E.sizeof_siridb_pkg_t) →
        s'.buf.length =
          E.sizeof_siridb_pkg_t + E.pkg_len (s.buf.take E.sizeof_siridb_pkg_t)) ∧
      (s.buf.length = s.size →
        s'.buf.length = s'.size ∧
        E.sizeof_siridb_pkg_t + E.pkg_len (s.buf.take E.sizeof_siridb_pkg_t) ≤
          s'.buf.length ∧
        s'.buf.take s.buf.length = s.buf) := by
  have hok : ¬ invalid_pkg E (s.buf.take E.sizeof_siridb_pkg_t) := by
    intro hbad
    rcases hbad with hb | hb
    · rw [hbit] at hb; exact Bool.noConfusion hb
    · omega
  have hstep := on_data_fuel_grow E (s.len + n) { s with len := s.len + n } hsee hok hlt
  rw [on_data_eq_fuel, hstep]
  by_cases hsz : s.size <
      E.sizeof_siridb_pkg_t + E.pkg_len (s.buf.take E.sizeof_siridb_pkg_t)
  · rw [if_pos hsz, if_pos (hmalloc hsz)]
    refine ⟨_, rfl, rfl, rfl, ?_, le_refl _, fun _ => rfl, fun h => ?_, rfl, rfl,
      fun _ => length_realloc s.buf _, fun hst => ⟨length_realloc s.buf _, ?_, ?_⟩⟩
    · exact take_realloc s.buf (s.len + n) _ hwf (Nat.le_of_lt hlt)
    · exact absurd hsz (Nat.not_lt.2 h)
    · exact Nat.le_of_eq (length_realloc s.buf _).symm
    · exact take_realloc_old s.buf _ (by rw [hst]; exact Nat.le_of_lt hsz)
  · rw [if_neg hsz]
    exact ⟨_, rfl, rfl, rfl, rfl, Nat.le_of_not_lt hsz, fun h => absurd h hsz,
      fun _ => ⟨rfl, rfl⟩, rfl, rfl, fun h => absurd h hsz,
      fun hst => ⟨hst, by rw [hst]; exact Nat.le_of_not_lt hsz, List.take_length s.buf⟩⟩

/-- The header of a frame with three payload bytes arrives with the first of
them, behind nothing, in a storage of sixteen bytes; then the same nine bytes
in a storage of nine, which grows to eleven bytes. -/
theorem growth_on_incomplete_frame_witness :
    (∃ s', suv__on_data libsiridb (hooked [7] (query7.pkg.take 9 ++ List.replicate 7 0))
        (9 : Nat) = some s' ∧ s'.len = 9 ∧ s'.size = 16 ∧
      s'.buf.take s'.len = query7.pkg.take 9 ∧ s'.buf.length = 16) ∧
    (∃ s', suv__on_data libsiridb (hooked [7] (query7.pkg.take 9)) (9 : Nat) = some s' ∧
      s'.len = 9 ∧ s'.size = 11 ∧ s'.buf.take s'.len = query7.pkg.take 9 ∧
      s'.buf.length = 11 ∧ s'.buf.take 9 = query7.pkg.take 9) := by
  constructor
  · obtain ⟨s', h1, _, h3, h4, _, _, h7, _, _, _, h11⟩ :=
      growth_on_incomplete_frame libsiridb
        (hooked [7] (query7.pkg.take 9 ++ List.replicate 7 0)) 9
        (by decide) (by decide) (by decide) (by decide) (by decide) (fun _ => rfl)
    have h12 := (h11 (by decide)).1
    rw [(h7 (by decide)).1] at h12
    exact ⟨s', h1, h3, (h7 (by decide)).1, h4, h12⟩
  · obtain ⟨s', h1, _, h3, h4, _, h6, _, _, _, h10, h11⟩ :=
      growth_on_incomplete_frame libsiridb (hooked [7] (query7.pkg.take 9)) 9
        (by decide) (by decide) (by decide) (by decide) (by decide) (fun _ => rfl)
    exact ⟨s', h1, h3, h6 (by decide), h4, h10 (by decide), (h11 (by decide)).2.2⟩

theorem suv_close_bound (s s' : suv_buf_t) (msg : Option String)
    (h : suv_close s msg = some s') : s'.len = s.len ∧ s'.size = s.size := by
  cases hd : s.data with
  | none => simp [suv_close, hd] at h
  | some tcp =>
    rw [suv_close_some s tcp hd] at h
    cases h
    exact ⟨rfl, rfl⟩

/-- A call of `suv__on_data` with no new bytes keeps `len ≤ size`. -/
theorem on_data_fuel_bound (E : Ext) :
    ∀ (fuel : Nat) (s s' : suv_buf_t), s.len ≤ s.size →
      suv__on_data_fuel E fuel s 0 = some s' → s'.len ≤ s'.size := by
  intro fuel
  induction fuel with
  | zero => intro s s' _ h; simp [suv__on_data_fuel] at h
  | succ k ih =>
    intro s s' hinv h
    by_cases hshort : s.len < E.sizeof_siridb_pkg_t
    · rw [on_data_fuel_short E k s hshort] at h
      cases h
      exact hinv
    · by_cases hbad : invalid_pkg E (s.buf.take E.sizeof_siridb_pkg_t)
      · rw [on_data_fuel_invalid E k s (by omega) hbad] at h
        obtain ⟨h1, h2⟩ := suv_close_bound s s' _ h
        omega
      · by_cases hlt : s.len <
            E.sizeof_siridb_pkg_t + E.pkg_len (s.buf.take E.sizeof_siridb_pkg_t)
        · rw [on_data_fuel_grow E k s (by omega) hbad hlt] at h
          split_ifs at h
          · cases h; exact Nat.le_of_lt hlt
          · cases h; exact hinv
        · rw [on_data_fuel_pkg E k s (by omega) hbad (by omega)] at h
          split_ifs at h
          · refine ih _ s' ?_ h
            simp only [compacted, after_pkg]
            omega
          · cases h
            simp only [after_pkg]
            omega

/-- One read that keeps to the offered region keeps `len ≤ size`. -/
theorem uv_read_bound (E : Ext) (s s' : suv_buf_t) (r : Read) (hinv : s.len ≤ s.size)
    (hfit : read_in_region E s r = true) (h : uv_read E s r = some s') :
    s'.len ≤ s'.size := by
  cases r with
  | chunk sugsz bytes =>
    by_cases hc : s.len = 0 ∧ s.size ≠ sugsz
    · by_cases hm : E.malloc_ok sugsz = true
      · simp only [read_in_region, suv__alloc_buf, if_pos hc, if_pos hm, Nat.sub_zero,
          decide_eq_true_eq] at hfit
        simp only [uv_read, suv__alloc_buf, if_pos hc, if_pos hm, uv_fill,
          on_data_eq_fuel] at h
        exact on_data_fuel_bound E _ _ s' (by simp only []; omega) h
      · simp [uv_read, suv__alloc_buf, hc, hm] at h
    · simp only [read_in_region, suv__alloc_buf, if_neg hc, decide_eq_true_eq] at hfit
      simp only [uv_read, suv__alloc_buf, if_neg hc, uv_fill, on_data_eq_fuel] at h
      exact on_data_fuel_bound E _ _ s' (by simp only []; omega) h
  | fail sugsz k =>
    have hneg : Int.negSucc k < 0 := Int.negSucc_lt_zero k
    by_cases hc : s.len = 0 ∧ s.size ≠ sugsz
    · by_cases hm : E.malloc_ok sugsz = true
      · simp only [uv_read, suv__alloc_buf, if_pos hc, if_pos hm, suv__on_data,
          suv__on_data_fuel, hneg, if_true] at h
        obtain ⟨h1, h2⟩ := suv_close_bound _ s' _ h
        rw [h1, h2]
        exact Nat.zero_le _
      · simp [uv_read, suv__alloc_buf, hc, hm] at h
    · simp only [uv_read, suv__alloc_buf, if_neg hc, suv__on_data, suv__on_data_fuel, hneg,
        if_true] at h
      obtain ⟨h1, h2⟩ := suv_close_bound _ s' _ h
      omega

/-- Reads that keep to the offered regions keep `len ≤ size`. -/
theorem uv_reads_bound (E : Ext) :
    ∀ (rs : List Read) (s s' : suv_buf_t), s.len ≤ s.size → reads_in_region E s rs = true →
      uv_reads E s rs = some s' → s'.len ≤ s'.size := by
  intro rs
  induction rs with
  | nil =>
    intro s s' hinv _ h
    simp only [uv_reads, Option.some.injEq] at h
    rw [← h]; exact hinv
  | cons r rs ih =>
    intro s s' hinv hfit h
    simp only [reads_in_region, Bool.and_eq_true] at hfit
    cases hr : uv_read E s r with
    | none => simp [uv_reads, hr] at h
    | some s1 =>
      simp only [uv_reads, hr] at h
      have hf2 := hfit.2
      simp only [hr] at hf2
      exact ih s1 s' (uv_read_bound E s s1 r hinv hfit.1 hr) hf2 h

/-- On a connection with its handle, with a header of at least one byte and
allocations that succeed, `suv__on_data` returns. -/
theorem on_data_fuel_total (E : Ext) (hpos : 0 < E.sizeof_siridb_pkg_t)
    (hmalloc : ∀ n, E.malloc_ok n = true) :
    ∀ (fuel : Nat) (s : suv_buf_t), s.len < fuel → (∃ tcp, s.data = some tcp) →
      ∃ s', suv__on_data_fuel E fuel s 0 = some s' ∧ ∃ tcp, s'.data = some tcp := by
  intro fuel
  induction fuel with
  | zero => intro s h; omega
  | succ k ih =>
    intro s hfuel hd
    obtain ⟨tcp, hd⟩ := hd
    by_cases hshort : s.len < E.sizeof_siridb_pkg_t
    · exact ⟨s, on_data_fuel_short E k s hshort, tcp, hd⟩
    · by_cases hbad : invalid_pkg E (s.buf.take E.sizeof_siridb_pkg_t)
      · rw [on_data_fuel_invalid E k s (by omega) hbad, suv_close_some s tcp hd]
        exact ⟨_, rfl, _, rfl⟩
      · by_cases hlt : s.len <
            E.sizeof_siridb_pkg_t + E.pkg_len (s.buf.take E.sizeof_siridb_pkg_t)
        · rw [on_data_fuel_grow E k s (by omega) hbad hlt]
          split_ifs with h1 h2
          · exact ⟨_, rfl, tcp, hd⟩
          · exact absurd (hmalloc _) h2
          · exact ⟨_, rfl, tcp, hd⟩
        · rw [on_data_fuel_pkg E k s (by omega) hbad (by omega)]
          split_ifs
          · exact ih _ (by simp only [compacted, after_pkg]; omega) ⟨tcp, hd⟩
          · exact ⟨_, rfl, tcp, hd⟩

theorem uv_read_total (E : Ext) (hpos : 0 < E.sizeof_siridb_pkg_t)
    (hmalloc : ∀ n, E.malloc_ok n = true) (s : suv_buf_t) (hd : ∃ tcp, s.data = some tcp)
    (r : Read) : ∃ s', uv_read E s r = some s' ∧ ∃ tcp, s'.data = some tcp := by
  cases r with
  | chunk sugsz bytes =>
    by_cases hc : s.len = 0 ∧ s.size ≠ sugsz
    · simp only [uv_read, suv__alloc_buf, if_pos hc, hmalloc, if_true, uv_fill, on_data_eq_fuel]
      exact on_data_fuel_total E hpos hmalloc _ _ (by simp only []; omega) hd
    · simp only [uv_read, suv__alloc_buf, if_neg hc, uv_fill, on_data_eq_fuel]
      exact on_data_fuel_total E hpos hmalloc _ _ (by simp only []; omega) hd
  | fail sugsz k =>
    have hneg : Int.negSucc k < 0 := Int.negSucc_lt_zero k
    obtain ⟨tcp, hd⟩ := hd
    by_cases hc : s.len = 0 ∧ s.size ≠ sugsz
    · simp only [uv_read, suv__alloc_buf, if_pos hc, hmalloc, if_true, suv__on_data,
        suv__on_data_fuel, hneg]
      rw [suv_close_some { s with buf := List.replicate sugsz 0, size := sugsz, len := 0 }
        tcp hd]
      exact ⟨_, rfl, _, rfl⟩
    · simp only [uv_read, suv__alloc_buf, if_neg hc, suv__on_data, suv__on_data_fuel, hneg,
        if_true]
      rw [suv_close_some s tcp hd]
      exact ⟨_, rfl, _, rfl⟩

theorem uv_reads_total (E : Ext) (hpos : 0 < E.sizeof_siridb_pkg_t)
    (hmalloc : ∀ n, E.malloc_ok n = true) :
    ∀ (rs : List Read) (s : suv_buf_t), (∃ tcp, s.data = some tcp) →
      ∃ s', uv_reads E s rs = some s' := by
  intro rs
  induction rs with
  | nil => intro s _; exact ⟨s, rfl⟩
  | cons r rs ih =>
    intro s hd
    obtain ⟨s1, hr, hd1⟩ := uv_read_total E hpos hmalloc s hd r
    obtain ⟨s2, hrs⟩ := ih s1 hd1
    exact ⟨s2, by simp only [uv_reads, hr]; exact hrs⟩

/-- What `suv__alloc_buf` returns: the offered region starts at `len` and has
`size - len` bytes, and the buffer is either untouched or was empty with a
size other than the suggested one and is empty with the suggested size. -/
theorem alloc_buf_cases (E : Ext) (s s1 : suv_buf_t) (sugsz : Nat) (region : Nat × Nat)
    (h : suv__alloc_buf E s sugsz = some (s1, region)) :
    region = (s1.len, s1.size - s1.len) ∧
      (s1 = s ∨ (s.len = 0 ∧ s.size ≠ sugsz ∧ s1.len = 0 ∧ s1.size = sugsz)) := by
  by_cases hc : s.len = 0 ∧ s.size ≠ sugsz
  · by_cases hm : E.malloc_ok sugsz = true
    · simp only [suv__alloc_buf, if_pos hc, if_pos hm, Option.some.injEq, Prod.mk.injEq] at h
      obtain ⟨h1, h2⟩ := h
      subst h1
      exact ⟨h2.symm, Or.inr ⟨hc.1, hc.2, rfl, rfl⟩⟩
    · simp [suv__alloc_buf, hc, hm] at h
  · simp only [suv__alloc_buf, if_neg hc, Option.some.injEq, Prod.mk.injEq] at h
    obtain ⟨h1, h2⟩ := h
    subst h1
    exact ⟨h2.symm, Or.inl rfl⟩

/-- C13, buffer bound invariant: starting from a fresh buffer, after every
sequence of reads in which each chunk has at most as many bytes as
`suv__alloc_buf` offered, the state satisfies `len ≤ size`, and the region
offered next starts at `len` and ends at `size`; with a header of at least one
byte, allocations that succeed and a handle, every such sequence returns.
`suv__alloc_buf` offers the region `[len, size)`, resets the storage only
when `len = 0` and `size` differs from the suggested size, and on a buffer
with `len > 0` it returns the buffer as it was. -/
theorem buffer_bound_invariant (E : Ext) (queue : List Nat) (data : Option uv_tcp_t)
    (rs : List Read) (hfit : reads_in_region E (suv_buf_create queue data) rs = true) :
    (∀ s', uv_reads E (suv_buf_create queue data) rs = some s' →
      s'.len ≤ s'.size ∧
      ∀ sugsz s1 region, suv__alloc_buf E s' sugsz = some (s1, region) →
        s1.len ≤ s1.size ∧ region.1 = s1.len ∧ region.1 + region.2 = s1.size) ∧
    (0 < E.sizeof_siridb_pkg_t → (∀ n, E.malloc_ok n = true) → (∃ tcp, data = some tcp) →
      ∃ s', uv_reads E (suv_buf_create queue data) rs = some s' ∧ s'.len ≤ s'.size) ∧
    (∀ (s : suv_buf_t) (sugsz : Nat), 0 < s.len →
      suv__alloc_buf E s sugsz = some (s, (s.len, s.size - s.len))) ∧
    (∀ (s s1 : suv_buf_t) (sugsz : Nat) (region : Nat × Nat),
      suv__alloc_buf E s sugsz = some (s1, region) →
        region = (s1.len, s1.size - s1.len) ∧
          (s1 = s ∨ (s.len = 0 ∧ s.size ≠ sugsz ∧ s1.len = 0 ∧ s1.size = sugsz))) := by
  have hinv : ∀ s', uv_reads E (suv_buf_create queue data) rs = some s' → s'.len ≤ s'.size :=
    fun s' h => uv_reads_bound E rs _ s' (Nat.le_refl 0) hfit h
  refine ⟨fun s' h => ⟨hinv s' h, ?_⟩, ?_, ?_, ?_⟩
  · intro sugsz s1 region ha
    obtain ⟨hreg, hcase⟩ := alloc_buf_cases E s' s1 sugsz region ha
    have h1 : s1.len ≤ s1.size := by
      rcases hcase with hs | ⟨_, _, h0, _⟩
      · rw [hs]; exact hinv s' h
      · omega
    rw [hreg]
    exact ⟨h1, rfl, by simp only []; omega⟩
  · intro hpos hmalloc hd
    obtain ⟨s', hs'⟩ := uv_reads_total E hpos hmalloc rs (suv_buf_create queue data) hd
    exact ⟨s', hs', hinv s' hs'⟩
  · intro s sugsz hlen
    have hc : ¬ (s.len = 0 ∧ s.size ≠ sugsz) := by omega
    simp only [suv__alloc_buf, if_neg hc]
  · intro s s1 sugsz region h
    exact alloc_buf_cases E s s1 sugsz region h

/-- A frame arrives in two chunks, the second together with the start of the
next frame; then the read fails. -/
theorem buffer_bound_invariant_witness :
    (∃ s', uv_reads libsiridb (suv_buf_create [7, 8] (some { closing := false }))
        [Read.chunk 16 (frameA.take 3), Read.chunk 16 (frameA.drop 3 ++ frameB.take 4),
          Read.fail 16 103] = some s' ∧ s'.len ≤ s'.size) :=
  (buffer_bound_invariant libsiridb [7, 8] (some { closing := false })
    [Read.chunk 16 (frameA.take 3), Read.chunk 16 (frameA.drop 3 ++ frameB.take 4),
      Read.fail 16 103] (by decide)).2.1 (by decide) (fun _ => rfl) ⟨_, rfl⟩

/-! ## Teardown -/

theorem mem_queue_pop (queue : List Nat) (pid q : Nat) :
    q ∈ queue_pop queue pid ↔ q ∈ queue ∧ q ≠ pid := by
  simp [queue_pop]

theorem cb_count_map_req_cb (pid : Nat) (status : Int) :
    ∀ ps : List Pending,
      cb_count pid (ps.map (fun p => Event.req_cb p.swrite._req.pid status)) =
        (ps.map (fun p => p.swrite._req.pid)).count pid := by
  intro ps
  induction ps with
  | nil => rfl
  | cons p ps ih =>
    simp only [List.map_cons, cb_count, ih, List.count_cons]
    by_cases h : p.swrite._req.pid = pid
    · simp [h]; omega
    · simp [h]

/-- The cancellations of a close: each pending request gets its callback once,
with the translated status, and its pid leaves the queue; the buffer is not
touched and the transport slot is cleared at the end. -/
theorem uv_close_finish_spec (E : Ext) (ecanceled : Int) (hneg : ecanceled < 0)
    (hmin : -2147483648 < ecanceled) :
    ∀ (ps : List Pending) (s : suv_buf_t),
      (∀ p ∈ ps, p.swrite.pkg_pid = p.swrite._req.pid) →
      (uv_close_finish E ecanceled s ps).trace =
          s.trace ++ ps.map (fun p => Event.req_cb p.swrite._req.pid (-ecanceled)) ∧
        (∀ pid, pid ∈ (uv_close_finish E ecanceled s ps).queue ↔
          pid ∈ s.queue ∧ pid ∉ ps.map (fun p => p.swrite._req.pid)) ∧
        (uv_close_finish E ecanceled s ps).data = none ∧
        (uv_close_finish E ecanceled s ps).len = s.len ∧
        (uv_close_finish E ecanceled s ps).buf = s.buf := by
  have hne : ecanceled ≠ 0 := by omega
  have hn := int_neg_of_neg ecanceled hneg hmin
  intro ps
  induction ps with
  | nil =>
    intro s _
    simp [uv_close_finish, suv__close_tcp]
  | cons p ps ih =>
    intro s hpid
    have hp := hpid p (List.mem_cons_self _ _)
    have hps : ∀ x ∈ ps, x.swrite.pkg_pid = x.swrite._req.pid :=
      fun x hx => hpid x (List.mem_cons_of_mem _ hx)
    have hstep : uv_close_finish E ecanceled s (p :: ps) =
        uv_close_finish E ecanceled
          { s with queue := queue_pop s.queue p.swrite._req.pid,
                   trace := s.trace ++ [Event.req_cb p.swrite._req.pid (-ecanceled)] } ps := by
      cases p with
      | write sw =>
        simp only [Pending.swrite] at hp
        simp only [uv_close_finish, suv__write_cb, hne, ne_eq, not_false_eq_true, if_true,
          suv_write_error, hn, hp, Pending.swrite]
      | connect c =>
        simp only [Pending.swrite] at hp
        simp only [uv_close_finish, suv__connect_cb, hne, ne_eq, not_false_eq_true, if_true,
          suv_write_error, hn, hp, Pending.swrite]
    obtain ⟨h1, h2, h3, h4, h5⟩ := ih
      { s with queue := queue_pop s.queue p.swrite._req.pid,
               trace := s.trace ++ [Event.req_cb p.swrite._req.pid (-ecanceled)] } hps
    rw [hstep]
    refine ⟨?_, ?_, h3, h4, h5⟩
    · rw [h1]
      simp only [List.map_cons, List.append_assoc, List.singleton_append]
    · intro pid
      rw [h2 pid]
      simp only [mem_queue_pop, List.map_cons, List.mem_cons, not_or]
      constructor
      · rintro ⟨⟨ha, hb⟩, hc⟩
        exact ⟨ha, hb, hc⟩
      · rintro ⟨ha, hb, hc⟩
        exact ⟨⟨ha, hb⟩, hc⟩

/-- C6 as amended: closing a connection that has its handle returns; then
every request whose write or connect the transport still holds is ended with
the cancellation status through `suv__write_cb` or `suv__connect_cb`: its pid
leaves the queue and its callback runs once, with the status translated to a
positive code. `suv_close` and `suv__close_tcp` themselves complete no
request: a request that is not pending at the transport (its write has
completed and it waits for its response) is in the queue afterwards exactly
when it was before, and its callback has not run. The transport slot is
cleared at the end. The closes made by `suv__on_data` (end of stream, read
error, framing violation) are calls of `suv_close`. -/
theorem teardown_completes_pending_only (E : Ext) (s : suv_buf_t) (tcp : uv_tcp_t)
    (hdata : s.data = some tcp) (msg : Option String) (ecanceled : Int)
    (hneg : ecanceled < 0) (hmin : -2147483648 < ecanceled) (ps : List Pending)
    (hpid : ∀ p ∈ ps, p.swrite.pkg_pid = p.swrite._req.pid) :
    (∃ s1, suv_close s msg = some s1 ∧
      s1.trace = s.trace ++ close_events s tcp.closing msg ∧ s1.queue = s.queue ∧
      (uv_close_finish E ecanceled s1 ps).trace =
        s1.trace ++ ps.map (fun p => Event.req_cb p.swrite._req.pid (-ecanceled)) ∧
      (∀ pid, pid ∈ ps.map (fun p => p.swrite._req.pid) →
        pid ∉ (uv_close_finish E ecanceled s1 ps).queue ∧
        cb_count pid (uv_close_finish E ecanceled s1 ps).trace =
          cb_count pid s.trace + (ps.map (fun p => p.swrite._req.pid)).count pid ∧
        cb_count pid s.trace < cb_count pid (uv_close_finish E ecanceled s1 ps).trace) ∧
      (∀ pid, pid ∉ ps.map (fun p => p.swrite._req.pid) →
        (pid ∈ (uv_close_finish E ecanceled s1 ps).queue ↔ pid ∈ s.queue) ∧
        cb_count pid (uv_close_finish E ecanceled s1 ps).trace = cb_count pid s.trace) ∧
      (uv_close_finish E ecanceled s1 ps).data = none) ∧
    (∀ k : Nat, suv__on_data E s (Int.negSucc k) =
      suv_close s (if Int.negSucc k ≠ E.UV_EOF then some (E.uv_strerror (Int.negSucc k))
        else none)) ∧
    (∀ n : Nat, E.sizeof_siridb_pkg_t ≤ s.len + n →
      invalid_pkg E (s.buf.take E.sizeof_siridb_pkg_t) →
      suv__on_data E s n =
        suv_close { s with len := s.len + n } (some "invalid package, connection closed")) := by
  obtain ⟨h1, h2, h3, _, _⟩ := uv_close_finish_spec E ecanceled hneg hmin ps
    { s with data := some { closing := true },
             trace := s.trace ++ close_events s tcp.closing msg } hpid
  have hcount : ∀ pid, cb_count pid (uv_close_finish E ecanceled
      { s with data := some { closing := true },
               trace := s.trace ++ close_events s tcp.closing msg } ps).trace =
      cb_count pid s.trace + (ps.map (fun p => p.swrite._req.pid)).count pid := by
    intro pid
    rw [h1]
    simp only [cb_count_append, cb_count_close_events, cb_count_map_req_cb, Nat.add_zero]
  refine ⟨⟨_, suv_close_some s tcp hdata msg, rfl, rfl, h1, ?_, ?_, h3⟩, ?_, ?_⟩
  · intro pid hmem
    refine ⟨fun hq => ((h2 pid).1 hq).2 hmem, hcount pid, ?_⟩
    rw [hcount pid]
    have := List.count_pos_iff.2 hmem
    omega
  · intro pid hnot
    refine ⟨⟨fun hq => ((h2 pid).1 hq).1, fun hq => (h2 pid).2 ⟨hq, hnot⟩⟩, ?_⟩
    rw [hcount pid, List.count_eq_zero_of_not_mem hnot]
    rfl
  · intro k
    have hk : Int.negSucc k < 0 := Int.negSucc_lt_zero k
    simp only [suv__on_data, suv__on_data_fuel, hk, if_true]
  · intro n hsee hbad
    rw [on_data_eq_fuel]
    exact on_data_fuel_invalid E _ _ hsee hbad

/-- The application closes a connection while the write of query 7 is still
pending and request 8 waits for its response. -/
theorem teardown_completes_pending_only_witness :
    (∃ s1, suv_close (hooked [7, 8] []) (some "bye") = some s1 ∧
      (uv_close_finish libsiridb (-125) s1 [Pending.write query7]).trace =
        s1.trace ++ [Pending.write query7].map
          (fun p => Event.req_cb p.swrite._req.pid (- (-125))) ∧
      7 ∉ (uv_close_finish libsiridb (-125) s1 [Pending.write query7]).queue ∧
      8 ∈ (uv_close_finish libsiridb (-125) s1 [Pending.write query7]).queue ∧
      cb_count 8 (uv_close_finish libsiridb (-125) s1 [Pending.write query7]).trace =
        cb_count 8 (hooked [7, 8] []).trace) := by
  obtain ⟨⟨s1, h1, _, _, h4, h5, h6, _⟩, _, _⟩ :=
    teardown_completes_pending_only libsiridb (hooked [7, 8] []) { closing := false } rfl
      (some "bye") (-125) (by decide) (by decide) [Pending.write query7] (by decide)
  exact ⟨s1, h1, h4, (h5 7 (by decide)).1, ((h6 8 (by decide)).1).2 (by decide),
    (h6 8 (by decide)).2⟩

end Suv
